import Mathlib

/-!
Verification of the AGROW Diagnostic Reasoning Orchestrator.

This development shallowly embeds the orchestrator's core components —
the priority context mapper (`priority_mapper.py`), the query router and
staged reasoning pipeline (`reasoning_engine.py`), the intent classifier
(`intent_classifier.py`) and the text-completion gateway with credential
rotation (`groq_client.py`) — as executable Lean definitions, and proves
or refutes the frozen specification claims about them.

Modelling conventions:
* Python dicts / JSON values are modelled by the inductive type `Val`
  (null / bool / rational number / string / list / dict as an
  association list).  Python floats are modelled as rationals.
* The external completion backend is modelled by passing each call's
  response text as an explicit argument, and `json.loads` by an explicit
  parameter `loads : String → Option JDict` (the code only ever uses the
  parsed payload as a dict; a non-dict parse would crash the Python
  call sites and is outside the modelled domain).
* Text is manipulated as `List Char`; Python's `str.find`, `str.rfind`,
  `str.strip`, slicing, `in` and `.lower()/.upper()` are given explicit
  executable models below.
-/

namespace Agrow

/-- JSON-like values as stored in Python dicts: the model of the context
bundle and of every parsed LLM payload.  Python `None` is `Val.null`,
floats are rationals, dicts are association lists in insertion order. -/
inductive Val where
  | null : Val
  | bool (b : Bool) : Val
  | num (q : ℚ) : Val
  | str (s : String) : Val
  | list (xs : List Val) : Val
  | dict (es : List (String × Val)) : Val

/-- A Python dict with string keys, in insertion order. -/
abbrev JDict := List (String × Val)

/-- `d[k]` lookup returning the first binding of `k` (keys are unique in
a Python dict, so first = only). -/
def dictFind : JDict → String → Option Val
  | [], _ => none
  | (k, v) :: es, key => if k = key then some v else dictFind es key

/-- Python `d.get(k, default)`. -/
def dictGet (d : JDict) (key : String) (default : Val) : Val :=
  (dictFind d key).getD default

/-- Python `k in d` for a dict. -/
def dictHasKey (d : JDict) (key : String) : Bool :=
  (dictFind d key).isSome

/-- Python `d[k] = v`: overwrite the existing binding or append a new
one at the end (insertion order preserved). -/
def dictSet : JDict → String → Val → JDict
  | [], key, v => [(key, v)]
  | (k, w) :: es, key, v =>
      if k = key then (k, v) :: es else (k, w) :: dictSet es key v

/-- `v` occurs inside bundle `b`: either `v` is `b` itself or `v` occurs
inside the value of some entry of a dict.  This is the sense in which a
projected context field is "a value present in the original bundle"
(the mapper only ever descends through dict entries). -/
inductive Occurs : Val → Val → Prop
  | refl (v : Val) : Occurs v v
  | inDict {v w : Val} {k : String} {es : List (String × Val)} :
      (k, w) ∈ es → Occurs v w → Occurs v (Val.dict es)

theorem Occurs.trans {a b c : Val} (hab : Occurs a b) (hbc : Occurs b c) :
    Occurs a c := by
  induction hbc with
  | refl => exact hab
  | inDict hmem _ ih => exact Occurs.inDict hmem ih

/-- ASCII `str.upper()` on a key (context paths are ASCII). -/
def strUpper (s : String) : String := ⟨s.data.map Char.toUpper⟩

/-- ASCII `str.lower()` on a key. -/
def strLower (s : String) : String := ⟨s.data.map Char.toLower⟩

-- ===========================================================================
-- priority_mapper.py
-- ===========================================================================

/-- `INTENT_CONTEXT_PRIORITIES` from `priority_mapper.py`: for each intent,
the four ordered lists of dotted field paths. -/
def INTENT_CONTEXT_PRIORITIES : List (String × (List String × List String × List String × List String)) :=
  [ ("vegetation_health",
      (["NDVI", "EVI", "NDRE", "RECI", "temporal_trends.NDVI"],
       ["clustering.stressed_patches", "anomalies", "PSRI", "PRI"],
       ["weather.temperature", "SMI", "B05", "B08", "weather.heat_stress"],
       ["SAR.VV", "SAR.VH", "previous_analysis", "farmer_actions"])),
    ("water_stress",
      (["SMI", "NDWI", "SAR.VV", "SAR.VH", "soil_indicators.moisture"],
       ["temporal_trends.SMI", "weather.precipitation", "weather.evapotranspiration"],
       ["NDVI", "clustering.moisture_clusters", "B11", "B12", "sentinel2_bands.B11"],
       ["farmer_actions.irrigation", "forecast.rain", "previous_analysis"])),
    ("nutrient_status",
      (["NDRE", "RECI", "MCARI", "B05", "B06", "B07", "sentinel2_bands.B05"],
       ["NDVI", "EVI", "temporal_trends.NDRE"],
       ["SMI", "SFI", "SOMI", "clustering.nutrient_clusters", "soil_indicators.fertility"],
       ["farmer_actions.fertilizer", "weather", "previous_analysis"])),
    ("pest_disease",
      (["anomalies", "PSRI", "PRI", "spatial_patterns.hotspots", "clustering.outliers"],
       ["NDVI", "temporal_trends.sudden_changes", "clustering.stressed_patches"],
       ["weather.humidity", "weather.temperature", "B04", "B05"],
       ["farmer_actions.spraying", "previous_analysis", "historical_issues"])),
    ("zone_specific",
      (["clustering.zone_stats", "patch_assignments", "spatial_embeddings", "clustering.clusters"],
       ["anomalies.in_zone", "vegetation_indices", "all_indices.zone_values"],
       ["temporal_trends.zone_specific", "temporal_trends"],
       ["previous_analysis.zone_notes", "farmer_actions.zone_specific"])),
    ("forecast_query",
      (["forecast.predictions", "temporal_trends", "weather.forecast", "weather_data"],
       ["NDVI", "SMI", "current_stress_level", "health_summary"],
       ["historical_patterns", "growth_stage", "clustering"],
       ["farmer_actions.planned", "previous_analysis"])),
    ("action_recommendation",
      (["health_summary", "NDVI", "SMI", "anomalies", "stressed_patches"],
       ["weather", "weather.forecast", "clustering.priority_zones"],
       ["temporal_trends", "soil_indicators"],
       ["farmer_actions", "previous_analysis", "recommendations_history"])),
    ("comparison",
      (["temporal_trends", "historical.NDVI", "historical.SMI"],
       ["change_detection", "improvement_metrics"],
       ["weather.historical", "farmer_actions.historical"],
       ["previous_analysis", "baseline_values"])),
    ("general_query",
      (["NDVI", "health_summary", "weather", "field_info"],
       ["SMI", "anomalies", "clustering.summary", "vegetation_indices"],
       ["temporal_trends", "forecast", "soil_indicators"],
       ["farmer_actions", "previous_analysis"])) ]

/-- The `general_query` fallback entry of the table. -/
def generalQueryPriorities : List String × List String × List String × List String :=
  (["NDVI", "health_summary", "weather", "field_info"],
   ["SMI", "anomalies", "clustering.summary", "vegetation_indices"],
   ["temporal_trends", "forecast", "soil_indicators"],
   ["farmer_actions", "previous_analysis"])

/-- `PriorityContextMapper.get_context_priorities`: look the intent up in
the static table, defaulting to the `general_query` entry. -/
def getContextPriorities (intent : String) :
    List String × List String × List String × List String :=
  match INTENT_CONTEXT_PRIORITIES.lookup intent with
  | some p => p
  | none => generalQueryPriorities

/-- Python `path.split(".")` (single-character separator). -/
def splitDotsAux : List Char → List Char → List String
  | [], acc => [⟨acc.reverse⟩]
  | c :: cs, acc =>
      if c = '.' then ⟨acc.reverse⟩ :: splitDotsAux cs []
      else splitDotsAux cs (c :: acc)

def splitDots (s : String) : List String := splitDotsAux s.data []

/-- `PriorityContextMapper._get_nested_value`: resolve a dotted path,
trying the exact, then upper-case, then lower-case key at every segment;
return `Val.null` (Python `None`) on any failure.  A stored `None` is
indistinguishable from a miss, exactly as in the Python code. -/
def getSegment (current : Val) (key : String) : Val :=
  match current with
  | Val.dict es =>
      if dictHasKey es key then dictGet es key Val.null
      else if dictHasKey es (strUpper key) then dictGet es (strUpper key) Val.null
      else if dictHasKey es (strLower key) then dictGet es (strLower key) Val.null
      else Val.null
  | _ => Val.null

def getNestedValueAux : Val → List String → Val
  | current, [] => current
  | current, key :: rest => getNestedValueAux (getSegment current key) rest

def getNestedValue (data : Val) (path : String) : Val :=
  getNestedValueAux data (splitDots path)

/-- The final segment of a dotted path: `path.split(".")[-1]`. -/
def lastSegment (path : String) : String :=
  ((splitDots path).getLast?).getD ""

/-- `PriorityContextMapper._extract_fields`: resolve each path; when the
result is not `None`, store it under the path's final segment. -/
def extractFields (context : Val) (fieldPaths : List String) : JDict :=
  fieldPaths.foldl
    (fun extracted path =>
      match getNestedValue context path with
      | Val.null => extracted
      | v => dictSet extracted (lastSegment path) v)
    []

/-- `PriorityContextMapper.extract_priority_context` at the default
priority levels `[1, 2, 3, 4]` (the only levels the engine uses):
the four tiers, in order. -/
def extractPriorityContext (intent : String) (fullContext : Val) :
    JDict × JDict × JDict × JDict :=
  let p := getContextPriorities intent
  (extractFields fullContext p.1,
   extractFields fullContext p.2.1,
   extractFields fullContext p.2.2.1,
   extractFields fullContext p.2.2.2)

/-- The four staged contexts. -/
structure StagedContext where
  claim_context : JDict
  validate_context : JDict
  contradict_context : JDict
  confirm_context : JDict

/-- Python truthiness of a value (`if veg:` etc.). -/
def truthy : Val → Bool
  | Val.null => false
  | Val.bool b => b
  | Val.num q => decide (q ≠ 0)
  | Val.str s => decide (s ≠ "")
  | Val.list xs => !xs.isEmpty
  | Val.dict es => !es.isEmpty

/-- A truthy top-level entry viewed as a dict: `some (some entries)`
when the value is a truthy dict, `some none` when falsy (the Python
block is skipped).  A truthy non-dict is mapped to `none`: there the
Python code goes on to perform dict operations (`idx in veg`,
`veg[idx]`, `field_info.get`) whose outcome is a `TypeError` for
numbers and for any value actually indexed; `buildStagedContext`
does not model those bundles and returns `none` for them. -/
def asUsableDict (v : Val) : Option (Option JDict) :=
  if truthy v then
    match v with
    | Val.dict es => some (some es)
    | _ => none
  else some none

/-- The vegetation indices copied into the claim tier when absent. -/
def vegIndexNames : List String := ["NDVI", "EVI", "NDRE", "SMI", "NDWI"]

/-- The entries of the bundle, viewed as a dict. -/
def bundleEntries : Val → JDict
  | Val.dict es => es
  | _ => []

/-- The claim-stage tier of `build_staged_context`: the priority-1
extraction, enriched with direct vegetation-index access (when the index
is absent from the tier) and with `crop_type` / `area_acres` taken from
`field_info` via `.get` (hence possibly `None`). -/
def stagedClaimTier (claim0 : JDict) (vegOpt fieldOpt : Option JDict) : JDict :=
  let claim1 :=
    match vegOpt with
    | none => claim0
    | some veg =>
        vegIndexNames.foldl
          (fun c idx =>
            if dictHasKey veg idx && !(dictHasKey c idx) then
              dictSet c idx (dictGet veg idx Val.null)
            else c)
          claim0
  match fieldOpt with
  | none => claim1
  | some fi =>
      dictSet (dictSet claim1 "crop_type" (dictGet fi "crop_type" Val.null))
        "area_acres" (dictGet fi "area_acres" Val.null)

/-- The confirm-stage tier of `build_staged_context`: the priority-4
extraction plus the SAR bands (when truthy and no `VV` key is present),
the farmer-action log and the previous analysis. -/
def stagedConfirmTier (confirm0 : JDict) (fullD : JDict) : JDict :=
  let sar := dictGet fullD "sar_bands" (Val.dict [])
  let confirm1 :=
    if truthy sar && !(dictHasKey confirm0 "VV") then
      dictSet confirm0 "SAR" sar
    else confirm0
  let farmer := dictGet fullD "farmer_actions" (Val.dict [])
  let confirm2 :=
    if truthy farmer then dictSet confirm1 "farmer_actions" farmer else confirm1
  let prev := dictGet fullD "previous_analysis" (Val.dict [])
  if truthy prev then dictSet confirm2 "previous_analysis" prev else confirm2

/-- `PriorityContextMapper.build_staged_context`: the four extracted
tiers, with the claim and confirm tiers enriched as in the source.
Returns `none` when a truthy non-dict sits where the code performs dict
operations (see `asUsableDict`). -/
def buildStagedContext (intent : String) (fullContext : Val) :
    Option StagedContext :=
  let pc := extractPriorityContext intent fullContext
  let fullD := bundleEntries fullContext
  match asUsableDict (dictGet fullD "vegetation_indices" (Val.dict [])),
        asUsableDict (dictGet fullD "field_info" (Val.dict [])) with
  | some vegOpt, some fieldOpt =>
      some ⟨stagedClaimTier pc.1 vegOpt fieldOpt, pc.2.1, pc.2.2.1,
            stagedConfirmTier pc.2.2.2 fullD⟩
  | _, _ => none

-- ===========================================================================
-- Lemmas: every projected context value is present in the bundle
-- ===========================================================================

theorem dictFind_mem {es : JDict} {k : String} {v : Val}
    (h : dictFind es k = some v) : (k, v) ∈ es := by
  induction es with
  | nil => simp [dictFind] at h
  | cons e es ih =>
    obtain ⟨k', v'⟩ := e
    by_cases hk : k' = k
    · subst hk
      simp [dictFind] at h
      simp [h]
    · simp [dictFind, hk] at h
      exact List.mem_cons_of_mem _ (ih h)

theorem mem_dictSet {d : JDict} {key k : String} {w v : Val}
    (h : (k, v) ∈ dictSet d key w) : (k = key ∧ v = w) ∨ (k, v) ∈ d := by
  induction d with
  | nil =>
    simp [dictSet] at h
    exact Or.inl h
  | cons e es ih =>
    obtain ⟨k', v'⟩ := e
    by_cases hk : k' = key
    · subst hk
      simp [dictSet] at h
      rcases h with ⟨h1, h2⟩ | h
      · exact Or.inl ⟨h1.symm ▸ rfl, h2⟩
      · exact Or.inr (List.mem_cons_of_mem _ h)
    · simp [dictSet, hk] at h
      rcases h with ⟨h1, h2⟩ | h
      · exact Or.inr (by simp [h1, h2])
      · rcases ih h with h' | h'
        · exact Or.inl h'
        · exact Or.inr (List.mem_cons_of_mem _ h')

theorem dictHasKey_exists {d : JDict} {k : String} (h : dictHasKey d k = true) :
    ∃ v, dictFind d k = some v := by
  unfold dictHasKey at h
  cases hf : dictFind d k with
  | none => rw [hf] at h; simp at h
  | some v => exact ⟨v, rfl⟩

theorem occurs_of_dictFind {es : JDict} {k : String} {v : Val}
    (h : dictFind es k = some v) : Occurs v (Val.dict es) :=
  Occurs.inDict (dictFind_mem h) (Occurs.refl v)

/-- One resolution step either misses (`null`) or lands on a value of the
current dict. -/
theorem getSegment_occurs (current : Val) (key : String) :
    getSegment current key = Val.null ∨ Occurs (getSegment current key) current := by
  cases current with
  | dict es =>
    unfold getSegment
    by_cases h1 : dictHasKey es key = true
    · obtain ⟨v, hv⟩ := dictHasKey_exists h1
      simp [h1, dictGet, hv]
      exact Or.inr (occurs_of_dictFind hv)
    · by_cases h2 : dictHasKey es (strUpper key) = true
      · obtain ⟨v, hv⟩ := dictHasKey_exists h2
        simp [h1, h2, dictGet, hv]
        exact Or.inr (occurs_of_dictFind hv)
      · by_cases h3 : dictHasKey es (strLower key) = true
        · obtain ⟨v, hv⟩ := dictHasKey_exists h3
          simp [h1, h2, h3, dictGet, hv]
          exact Or.inr (occurs_of_dictFind hv)
        · simp [h1, h2, h3]
  | null => exact Or.inl rfl
  | bool b => exact Or.inl rfl
  | num q => exact Or.inl rfl
  | str s => exact Or.inl rfl
  | list xs => exact Or.inl rfl

theorem getNestedValueAux_null (keys : List String) :
    getNestedValueAux Val.null keys = Val.null := by
  induction keys with
  | nil => rfl
  | cons key rest ih => simpa [getNestedValueAux, getSegment] using ih

theorem getNestedValueAux_occurs (keys : List String) (current : Val) :
    getNestedValueAux current keys = Val.null ∨
      Occurs (getNestedValueAux current keys) current := by
  induction keys generalizing current with
  | nil => exact Or.inr (Occurs.refl current)
  | cons key rest ih =>
    rw [getNestedValueAux]
    rcases getSegment_occurs current key with hnull | hocc
    · rw [hnull, getNestedValueAux_null]; exact Or.inl rfl
    · rcases ih (getSegment current key) with h | h
      · exact Or.inl h
      · exact Or.inr (h.trans hocc)

theorem getNestedValue_occurs (data : Val) (path : String) :
    getNestedValue data path = Val.null ∨ Occurs (getNestedValue data path) data :=
  getNestedValueAux_occurs _ _

theorem extractFields_go_occurs (ctx : Val) (paths : List String) :
    ∀ acc : JDict, (∀ k v, (k, v) ∈ acc → Occurs v ctx) →
      ∀ k v, (k, v) ∈ paths.foldl
        (fun extracted path =>
          match getNestedValue ctx path with
          | Val.null => extracted
          | v => dictSet extracted (lastSegment path) v) acc →
        Occurs v ctx := by
  induction paths with
  | nil => intro acc hacc k v hv; exact hacc k v hv
  | cons p ps ih =>
    intro acc hacc k v hv
    rw [List.foldl_cons] at hv
    refine ih _ ?_ k v hv
    intro k' v' hmem
    rcases hval : getNestedValue ctx p with _ | b | q | s | xs | es
    all_goals rw [hval] at hmem
    · exact hacc k' v' hmem
    all_goals {
      rcases mem_dictSet hmem with ⟨_, hv'⟩ | h
      · subst hv'
        rcases getNestedValue_occurs ctx p with h0 | h0
        · rw [hval] at h0; cases h0
        · rwa [hval] at h0
      · exact hacc k' v' h }

/-- Every binding produced by `_extract_fields` is a value present in the
original bundle. -/
theorem extractFields_occurs {ctx : Val} {paths : List String} {k : String}
    {v : Val} (h : (k, v) ∈ extractFields ctx paths) : Occurs v ctx :=
  extractFields_go_occurs ctx paths [] (by intro _ _ h; cases h) k v h

theorem asUsableDict_some_occurs {bundle : Val} {key : String} {d : JDict}
    (h : asUsableDict (dictGet (bundleEntries bundle) key (Val.dict [])) =
      some (some d)) : Occurs (Val.dict d) bundle := by
  cases bundle with
  | dict es =>
    simp only [bundleEntries] at h
    cases hf : dictFind es key with
    | none => simp [dictGet, hf, asUsableDict, truthy] at h
    | some w =>
      rw [dictGet, hf] at h
      simp only [Option.getD] at h
      cases w with
      | dict d' =>
        by_cases ht : truthy (Val.dict d') = true
        · simp [asUsableDict, ht] at h
          exact h ▸ occurs_of_dictFind hf
        · simp [asUsableDict, ht] at h
      | null => simp [asUsableDict, truthy] at h
      | bool b => simp only [asUsableDict] at h; split at h <;> simp at h
      | num q => simp only [asUsableDict] at h; split at h <;> simp at h
      | str s => simp only [asUsableDict] at h; split at h <;> simp at h
      | list xs => simp only [asUsableDict] at h; split at h <;> simp at h
  | null => simp [bundleEntries, dictGet, dictFind, asUsableDict, truthy] at h
  | bool b => simp [bundleEntries, dictGet, dictFind, asUsableDict, truthy] at h
  | num q => simp [bundleEntries, dictGet, dictFind, asUsableDict, truthy] at h
  | str s => simp [bundleEntries, dictGet, dictFind, asUsableDict, truthy] at h
  | list xs => simp [bundleEntries, dictGet, dictFind, asUsableDict, truthy] at h

theorem truthy_dictGet_occurs {bundle : Val} {key : String}
    (h : truthy (dictGet (bundleEntries bundle) key (Val.dict [])) = true) :
    Occurs (dictGet (bundleEntries bundle) key (Val.dict [])) bundle := by
  cases bundle with
  | dict es =>
    simp only [bundleEntries] at *
    cases hf : dictFind es key with
    | none => rw [dictGet, hf] at h; simp [truthy] at h
    | some w =>
      rw [dictGet, hf]
      simpa using occurs_of_dictFind hf
  | null => simp [bundleEntries, dictGet, dictFind, truthy] at h
  | bool b => simp [bundleEntries, dictGet, dictFind, truthy] at h
  | num q => simp [bundleEntries, dictGet, dictFind, truthy] at h
  | str s => simp [bundleEntries, dictGet, dictFind, truthy] at h
  | list xs => simp [bundleEntries, dictGet, dictFind, truthy] at h

theorem vegFold_occurs {bundle : Val} {veg : JDict}
    (hveg : Occurs (Val.dict veg) bundle) (idxs : List String) :
    ∀ c : JDict, (∀ k v, (k, v) ∈ c → Occurs v bundle) →
      ∀ k v, (k, v) ∈ idxs.foldl
        (fun c idx =>
          if dictHasKey veg idx && !(dictHasKey c idx) then
            dictSet c idx (dictGet veg idx Val.null)
          else c) c →
        Occurs v bundle := by
  induction idxs with
  | nil => intro c hc k v h; exact hc k v h
  | cons i is ih =>
    intro c hc k v h
    rw [List.foldl_cons] at h
    refine ih _ ?_ k v h
    intro k' v' hm
    by_cases hcond : (dictHasKey veg i && !(dictHasKey c i)) = true
    · rw [if_pos hcond] at hm
      rcases mem_dictSet hm with ⟨_, hv⟩ | hm'
      · subst hv
        obtain ⟨w, hw⟩ := dictHasKey_exists (Bool.and_elim_left hcond)
        rw [dictGet, hw]
        simpa using (occurs_of_dictFind hw).trans hveg
      · exact hc _ _ hm'
    · rw [if_neg hcond] at hm
      exact hc _ _ hm

theorem stagedClaimTier_occurs {bundle : Val} {claim0 : JDict}
    (h0 : ∀ k v, (k, v) ∈ claim0 → Occurs v bundle)
    {vegOpt fieldOpt : Option JDict}
    (hveg : ∀ veg, vegOpt = some veg → Occurs (Val.dict veg) bundle)
    (hfi : ∀ fi, fieldOpt = some fi → Occurs (Val.dict fi) bundle) :
    ∀ k v, (k, v) ∈ stagedClaimTier claim0 vegOpt fieldOpt →
      Occurs v bundle ∨ ((k = "crop_type" ∨ k = "area_acres") ∧ v = Val.null) := by
  have h1 : ∀ k v,
      (k, v) ∈ (match vegOpt with
        | none => claim0
        | some veg =>
            vegIndexNames.foldl
              (fun c idx =>
                if dictHasKey veg idx && !(dictHasKey c idx) then
                  dictSet c idx (dictGet veg idx Val.null)
                else c) claim0) →
      Occurs v bundle := by
    cases hvo : vegOpt with
    | none => exact h0
    | some veg => exact vegFold_occurs (hveg veg hvo) vegIndexNames claim0 h0
  intro k v hm
  unfold stagedClaimTier at hm
  cases hfo : fieldOpt with
  | none =>
    rw [hfo] at hm
    exact Or.inl (h1 k v hm)
  | some fi =>
    rw [hfo] at hm
    have hfival : ∀ key, dictGet fi key Val.null = Val.null ∨
        Occurs (dictGet fi key Val.null) bundle := by
      intro key
      cases hf : dictFind fi key with
      | none => rw [dictGet, hf]; exact Or.inl rfl
      | some w =>
        rw [dictGet, hf]
        exact Or.inr (by simpa using (occurs_of_dictFind hf).trans (hfi fi hfo))
    rcases mem_dictSet hm with ⟨hk, hv⟩ | hm'
    · subst hv
      rcases hfival "area_acres" with hnull | hocc
      · exact Or.inr ⟨Or.inr hk, hnull⟩
      · exact Or.inl hocc
    · rcases mem_dictSet hm' with ⟨hk, hv⟩ | hm''
      · subst hv
        rcases hfival "crop_type" with hnull | hocc
        · exact Or.inr ⟨Or.inl hk, hnull⟩
        · exact Or.inl hocc
      · exact Or.inl (h1 k v hm'')

theorem stagedConfirmTier_occurs {bundle : Val} {confirm0 : JDict}
    (h0 : ∀ k v, (k, v) ∈ confirm0 → Occurs v bundle) :
    ∀ k v, (k, v) ∈ stagedConfirmTier confirm0 (bundleEntries bundle) →
      Occurs v bundle := by
  have step : ∀ (c : JDict) (setKey lookupKey : String) (cond : Bool),
      (∀ k v, (k, v) ∈ c → Occurs v bundle) →
      (cond = true →
        truthy (dictGet (bundleEntries bundle) lookupKey (Val.dict [])) = true) →
      ∀ k v, (k, v) ∈ (if cond then
          dictSet c setKey (dictGet (bundleEntries bundle) lookupKey (Val.dict []))
        else c) → Occurs v bundle := by
    intro c setKey lookupKey cond hc hcond k v hm
    by_cases hb : cond = true
    · rw [if_pos hb] at hm
      rcases mem_dictSet hm with ⟨_, hv⟩ | hm'
      · subst hv; exact truthy_dictGet_occurs (hcond hb)
      · exact hc _ _ hm'
    · rw [if_neg hb] at hm; exact hc _ _ hm
  intro k v hm
  simp only [stagedConfirmTier] at hm
  exact step _ "previous_analysis" "previous_analysis" _
    (step _ "farmer_actions" "farmer_actions" _
      (step confirm0 "SAR" "sar_bands" _ h0 (fun hb => Bool.and_elim_left hb))
      (fun hb => hb))
    (fun hb => hb) k v hm

-- ===========================================================================
-- Claim C2
-- ===========================================================================

/-- Claim C2 (amended).  Every binding of any of the four priority tiers
resolves to a value present in the original bundle (exact, then
upper-case, then lower-case key at every dotted segment; unresolved
paths omitted).  In the staged contexts of `build_staged_context` the
same holds for every binding except the always-injected `crop_type` and
`area_acres` entries, which are `None` (not a bundle value) whenever
`field_info` lacks them. -/
theorem priority_context_no_fabrication (intent : String) (bundle : Val)
    (st : StagedContext) (k : String) (v : Val)
    (hst : buildStagedContext intent bundle = some st) :
    (((k, v) ∈ (extractPriorityContext intent bundle).1 ∨
      (k, v) ∈ (extractPriorityContext intent bundle).2.1 ∨
      (k, v) ∈ (extractPriorityContext intent bundle).2.2.1 ∨
      (k, v) ∈ (extractPriorityContext intent bundle).2.2.2) → Occurs v bundle) ∧
    (((k, v) ∈ st.claim_context ∨ (k, v) ∈ st.validate_context ∨
      (k, v) ∈ st.contradict_context ∨ (k, v) ∈ st.confirm_context) →
      Occurs v bundle ∨ ((k = "crop_type" ∨ k = "area_acres") ∧ v = Val.null)) := by
  constructor
  · intro h
    simp only [extractPriorityContext] at h
    rcases h with h | h | h | h <;> exact extractFields_occurs h
  · intro h
    unfold buildStagedContext at hst
    dsimp only at hst
    cases h1 : asUsableDict
        (dictGet (bundleEntries bundle) "vegetation_indices" (Val.dict [])) with
    | none => rw [h1] at hst; simp at hst
    | some vegOpt =>
      cases h2 : asUsableDict
          (dictGet (bundleEntries bundle) "field_info" (Val.dict [])) with
      | none => rw [h1, h2] at hst; simp at hst
      | some fieldOpt =>
        rw [h1, h2] at hst
        simp only [Option.some.injEq] at hst
        subst hst
        simp only [extractPriorityContext] at h
        rcases h with h | h | h | h
        · exact stagedClaimTier_occurs
            (fun k v hm => extractFields_occurs hm)
            (fun veg hv => asUsableDict_some_occurs (hv ▸ h1))
            (fun fi hf => asUsableDict_some_occurs (hf ▸ h2)) k v h
        · exact Or.inl (extractFields_occurs h)
        · exact Or.inl (extractFields_occurs h)
        · exact Or.inl (stagedConfirmTier_occurs
            (fun k v hm => extractFields_occurs hm) k v h)

/-- Concrete bundle whose `field_info` lacks `crop_type`. -/
def bundleC2 : Val := Val.dict [("field_info", Val.dict [("notes", Val.str "x")])]

/-- The staged context the mapper builds for `bundleC2`. -/
def stagedC2 : StagedContext :=
  ⟨[("field_info", Val.dict [("notes", Val.str "x")]),
    ("crop_type", Val.null), ("area_acres", Val.null)], [], [], []⟩

/-- Claim C2, as stated, is false: for a bundle whose `field_info` has no
`crop_type`, `build_staged_context` puts the fabricated binding
`crop_type ↦ None` into the claim tier — `None` is not a value present
in the bundle. -/
theorem staged_context_fabricates_null_value :
    buildStagedContext "general_query" bundleC2 = some stagedC2 ∧
    ("crop_type", Val.null) ∈ stagedC2.claim_context ∧
    ¬ Occurs Val.null bundleC2 := by
  refine ⟨rfl, List.Mem.tail _ (List.Mem.head _), ?_⟩
  intro h
  rcases h with _ | ⟨hmem, h2⟩
  rw [List.mem_singleton] at hmem
  cases hmem
  rcases h2 with _ | ⟨hmem2, h3⟩
  rw [List.mem_singleton] at hmem2
  cases hmem2
  cases h3

/-- Witness bundle for the amended claim: `NDVI` and a `field_info`
carrying `crop_type`. -/
def bundleW : Val :=
  Val.dict [("NDVI", Val.num (3/10)),
            ("field_info", Val.dict [("crop_type", Val.str "wheat")])]

/-- The staged context built for `bundleW` under `vegetation_health`. -/
def stagedW : StagedContext :=
  ⟨[("NDVI", Val.num (3/10)), ("crop_type", Val.str "wheat"),
    ("area_acres", Val.null)], [], [], []⟩

theorem priority_context_no_fabrication_witness :
    Occurs (Val.num (3/10)) bundleW ∧
    (Occurs (Val.str "wheat") bundleW ∨
      (("crop_type" = "crop_type" ∨ "crop_type" = "area_acres") ∧
        Val.str "wheat" = Val.null)) :=
  ⟨(priority_context_no_fabrication "vegetation_health" bundleW stagedW
      "NDVI" (Val.num (3/10)) rfl).1 (Or.inl (List.Mem.head _)),
   (priority_context_no_fabrication "vegetation_health" bundleW stagedW
      "crop_type" (Val.str "wheat") rfl).2
      (Or.inl (List.Mem.tail _ (List.Mem.head _)))⟩

-- ===========================================================================
-- Substring search (Python `in`, `str.find`) on lists of characters
-- ===========================================================================

/-- `pat` is a prefix of `s` (Boolean). -/
def isPrefixL : List Char → List Char → Bool
  | [], _ => true
  | _ :: _, [] => false
  | p :: ps, c :: cs => p == c && isPrefixL ps cs

/-- First index at which `pat` occurs in `text` (Python `text.find(pat)`,
with `none` for `-1`). -/
def findIdx (pat : List Char) : List Char → Option ℕ
  | [] => if isPrefixL pat [] then some 0 else none
  | c :: cs =>
      if isPrefixL pat (c :: cs) then some 0 else (findIdx pat cs).map (· + 1)

/-- Python `pat in text`. -/
def containsSub (pat text : List Char) : Bool := (findIdx pat text).isSome

/-- Python `str.lower()` (ASCII). -/
def lowerL (s : List Char) : List Char := s.map Char.toLower

-- ===========================================================================
-- reasoning_engine.py: route_query  (Claim C1)
-- ===========================================================================

/-- The fixed "simple" intent set of `ReasoningEngine.route_query`. -/
def fastIntents : List String := ["vegetation_health", "water_stress", "nutrient_status"]

/-- `ReasoningEngine.route_query`: Fast Lane when the primary intent is
simple with confidence above 0.7, checked *before* the comparison test;
otherwise Deep Dive (both the comparison branch and the default). -/
def route_query (query primaryIntent : String) (confidence : ℚ) : String :=
  if primaryIntent ∈ fastIntents ∧ confidence > 7/10 then "FAST_LANE"
  else if containsSub "compare".data (lowerL query.data) ||
          containsSub "difference".data (lowerL query.data) then "DEEP_DIVE"
  else "DEEP_DIVE"

/-- Claim C1, as stated, is false: a query containing the comparison word
"compare" still routes to Fast Lane when its primary intent is in the
simple set with confidence above 0.7 — the router checks the fast-lane
condition first and never consults the comparison test there. -/
theorem route_query_comparison_fast_lane :
    route_query "compare water stress in my field" "water_stress" (4/5) = "FAST_LANE" ∧
    containsSub "compare".data
      (lowerL "compare water stress in my field".data) = true := by
  refine ⟨?_, by decide⟩
  unfold route_query
  rw [if_pos ⟨by decide, by norm_num⟩]

/-- Claim C1 (amended): the router chooses Fast Lane exactly when the
primary intent lies in the fixed simple set {vegetation_health,
water_stress, nutrient_status} and its confidence exceeds 0.7; every
other case — including comparison queries that fail this condition —
routes to Deep Dive.  (A comparison query that satisfies the fast-lane
condition routes to Fast Lane, contrary to the original claim.) -/
theorem route_query_spec (query primary : String) (confidence : ℚ) :
    (route_query query primary confidence = "FAST_LANE" ↔
      primary ∈ fastIntents ∧ confidence > 7/10) ∧
    (route_query query primary confidence = "FAST_LANE" ∨
      route_query query primary confidence = "DEEP_DIVE") := by
  unfold route_query
  by_cases h : primary ∈ fastIntents ∧ confidence > 7/10
  · rw [if_pos h]
    exact ⟨⟨fun _ => h, fun _ => rfl⟩, Or.inl rfl⟩
  · rw [if_neg h, ite_self]
    exact ⟨⟨fun heq => absurd heq (by decide), fun hc => absurd hc h⟩, Or.inr rfl⟩

-- ===========================================================================
-- groq_client.py: call_groq  (Claims C3, C4)
-- ===========================================================================

/-- The observable outcome of one completion attempt with one credential:
success with a response text, a rate-limit error (contains "rate_limit"
or "429"), or any other error with its message.  The external API is
modelled as a deterministic oracle per (credential, attempt number). -/
inductive Outcome where
  | success (text : String) : Outcome
  | rateLimit : Outcome
  | generic (err : String) : Outcome

/-- Result of the per-credential retry loop of `call_groq`. -/
inductive KeyRes where
  | ok (text : String) : KeyRes
  | rotate : KeyRes
  | exhausted (err : String) : KeyRes

/-- Per-credential run record: attempts made, backoff sleeps performed,
final disposition. -/
structure KeyRun where
  attempts : ℕ
  sleeps : ℕ
  res : KeyRes

/-- The inner `for attempt in range(1, max_attempts_per_key + 1)` loop of
`call_groq`: success returns; a rate-limit signal breaks to the next
credential with no backoff; a generic error sleeps and retries unless
the budget is spent, in which case it is re-raised (caught by the outer
handler as this credential's failure).  `remaining` counts this attempt
and those after it (`max_attempts_per_key` initially). -/
def runKeyGo (f : ℕ → Outcome) (attempt : ℕ) : ℕ → KeyRun
  | 0 => ⟨0, 0, KeyRes.exhausted ""⟩
  | remaining + 1 =>
      match f attempt with
      | Outcome.success t => ⟨1, 0, KeyRes.ok t⟩
      | Outcome.rateLimit => ⟨1, 0, KeyRes.rotate⟩
      | Outcome.generic e =>
          if remaining = 0 then ⟨1, 0, KeyRes.exhausted e⟩
          else
            let r := runKeyGo f (attempt + 1) remaining
            ⟨r.attempts + 1, r.sleeps + 1, r.res⟩

/-- `max_attempts_per_key = 3` in `call_groq`. -/
def maxAttemptsPerKey : ℕ := 3

def runKey (f : ℕ → Outcome) : KeyRun := runKeyGo f 1 maxAttemptsPerKey

/-- The final result of `call_groq`: either a response text, or the
aggregated `ValueError`. -/
inductive GroqError where
  | noKeys : GroqError
  | allFailed (lastError : Option String) : GroqError

structure CallResult where
  attempts : ℕ
  sleeps : ℕ
  outcome : Except GroqError String

/-- The outer `for key_idx, api_key in enumerate(GROQ_API_KEYS)` loop:
success returns immediately; a rate-limit break moves on without
touching `last_error`; a re-raised generic error is caught, recorded in
`last_error`, and the next credential is tried. -/
def callGroqGo : List (ℕ → Outcome) → Option String → ℕ → ℕ → CallResult
  | [], lastErr, att, slp => ⟨att, slp, Except.error (GroqError.allFailed lastErr)⟩
  | k :: rest, lastErr, att, slp =>
      let r := runKey k
      match r.res with
      | KeyRes.ok t => ⟨att + r.attempts, slp + r.sleeps, Except.ok t⟩
      | KeyRes.rotate => callGroqGo rest lastErr (att + r.attempts) (slp + r.sleeps)
      | KeyRes.exhausted e => callGroqGo rest (some e) (att + r.attempts) (slp + r.sleeps)

/-- `call_groq`, as a function of the credential pool's behaviour: each
element of `keys` gives the outcome of each attempt with that
credential. -/
def call_groq (keys : List (ℕ → Outcome)) : CallResult :=
  if keys.isEmpty then ⟨0, 0, Except.error GroqError.noKeys⟩
  else callGroqGo keys none 0 0

theorem runKeyGo_succ (f : ℕ → Outcome) (att rem : ℕ) :
    runKeyGo f att (rem + 1) =
      match f att with
      | Outcome.success t => ⟨1, 0, KeyRes.ok t⟩
      | Outcome.rateLimit => ⟨1, 0, KeyRes.rotate⟩
      | Outcome.generic e =>
          if rem = 0 then ⟨1, 0, KeyRes.exhausted e⟩
          else
            let r := runKeyGo f (att + 1) rem
            ⟨r.attempts + 1, r.sleeps + 1, r.res⟩ := rfl

theorem runKey_of_rateLimit {f : ℕ → Outcome} (h1 : f 1 = Outcome.rateLimit) :
    runKey f = ⟨1, 0, KeyRes.rotate⟩ := by
  show runKeyGo f 1 (2 + 1) = _
  rw [runKeyGo_succ, h1]

theorem runKey_of_success {f : ℕ → Outcome} {t : String}
    (h1 : f 1 = Outcome.success t) : runKey f = ⟨1, 0, KeyRes.ok t⟩ := by
  show runKeyGo f 1 (2 + 1) = _
  rw [runKeyGo_succ, h1]

theorem runKeyGo_generic_all {f : ℕ → Outcome}
    (hgen : ∀ a, ∃ e, f a = Outcome.generic e) :
    ∀ rem att, ∃ e, runKeyGo f att (rem + 1) = ⟨rem + 1, rem, KeyRes.exhausted e⟩ ∧
      f (att + rem) = Outcome.generic e := by
  intro rem
  induction rem with
  | zero =>
    intro att
    obtain ⟨e, he⟩ := hgen att
    refine ⟨e, ?_, by simpa using he⟩
    rw [runKeyGo_succ, he]
    simp
  | succ r ih =>
    intro att
    obtain ⟨e, he⟩ := hgen att
    obtain ⟨e', hrun, hf⟩ := ih (att + 1)
    refine ⟨e', ?_, ?_⟩
    · rw [runKeyGo_succ, he]
      simp [hrun]
    · have harith : att + (r + 1) = att + 1 + r := by omega
      rw [harith]
      exact hf

/-- A credential failing generically on every attempt spends its full
budget: three attempts, two sleeps, final error from attempt 3. -/
theorem runKey_generic {f : ℕ → Outcome}
    (hgen : ∀ a, ∃ e, f a = Outcome.generic e) :
    ∃ e, runKey f = ⟨3, 2, KeyRes.exhausted e⟩ ∧ f 3 = Outcome.generic e := by
  obtain ⟨e, hrun, hf⟩ := runKeyGo_generic_all hgen 2 1
  exact ⟨e, hrun, hf⟩

/-- All-rate-limited pool followed by one working credential: helper
computation for Claim C3. -/
theorem callGroqGo_replicate_rateLimit (t : String) (rl ok : ℕ → Outcome)
    (hrl : rl 1 = Outcome.rateLimit) (hok : ok 1 = Outcome.success t)
    (n : ℕ) :
    ∀ lastErr att slp,
      callGroqGo (List.replicate n rl ++ [ok]) lastErr att slp =
        ⟨att + n + 1, slp, Except.ok t⟩ := by
  induction n with
  | zero =>
    intro lastErr att slp
    simp only [List.replicate, List.nil_append]
    rw [callGroqGo]
    simp [runKey_of_success hok]
  | succ n ih =>
    intro lastErr att slp
    rw [List.replicate_succ, List.cons_append, callGroqGo]
    simp only [runKey_of_rateLimit hrl]
    rw [ih lastErr (att + 1) (slp + 0)]
    have h1 : att + 1 + n + 1 = att + (n + 1) + 1 := by omega
    rw [h1]
    simp

/-- Claim C3: with credentials `1..N-1` always rate-limited and
credential `N` succeeding, `call_groq` returns the successful text after
exactly `N` attempts and performs zero backoff sleeps — a rate-limit
signal rotates immediately without consuming backoff time. -/
theorem call_groq_rate_limit_rotation (n : ℕ) (t : String)
    (rl ok : ℕ → Outcome) (hrl : rl 1 = Outcome.rateLimit)
    (hok : ok 1 = Outcome.success t) :
    call_groq (List.replicate n rl ++ [ok]) = ⟨n + 1, 0, Except.ok t⟩ := by
  unfold call_groq
  rw [if_neg (by simp)]
  rw [callGroqGo_replicate_rateLimit t rl ok hrl hok n none 0 0]
  rw [Nat.zero_add]

/-- Witness for Claim C3: a three-credential pool with the first two
rate-limited and the third succeeding answers in three attempts with no
sleeps. -/
theorem call_groq_rate_limit_rotation_witness :
    call_groq (List.replicate 2 (fun _ => Outcome.rateLimit) ++
        [fun _ => Outcome.success "ok"]) =
      ⟨3, 0, Except.ok "ok"⟩ :=
  call_groq_rate_limit_rotation 2 "ok" _ _ rfl rfl

theorem callGroqGo_generic (keys : List (ℕ → Outcome)) (hne : keys ≠ [])
    (hgen : ∀ f ∈ keys, ∀ a, ∃ e, f a = Outcome.generic e) :
    ∀ lastErr att slp, ∃ e f, keys.getLast? = some f ∧
      f 3 = Outcome.generic e ∧
      (callGroqGo keys lastErr att slp).outcome =
        Except.error (GroqError.allFailed (some e)) := by
  induction keys with
  | nil => exact absurd rfl hne
  | cons k rest ih =>
    intro lastErr att slp
    obtain ⟨e3, hrun, hf3⟩ :=
      runKey_generic (fun a => hgen k (List.mem_cons_self k rest) a)
    rw [callGroqGo]
    simp only [hrun]
    cases rest with
    | nil =>
      refine ⟨e3, k, rfl, hf3, ?_⟩
      rw [callGroqGo]
    | cons r rs =>
      obtain ⟨e, f, hlast, hf3, hout⟩ :=
        ih (by simp) (fun f hf a => hgen f (List.mem_cons_of_mem _ hf) a)
          (some e3) (att + 3) (slp + 2)
      exact ⟨e, f, by rw [List.getLast?_cons_cons]; exact hlast, hf3, hout⟩

theorem callGroqGo_ok_iff (keys : List (ℕ → Outcome)) :
    ∀ lastErr att slp,
      (∃ t, (callGroqGo keys lastErr att slp).outcome = Except.ok t) ↔
        ∃ f ∈ keys, ∃ t, (runKey f).res = KeyRes.ok t := by
  induction keys with
  | nil =>
    intro lastErr att slp
    simp [callGroqGo]
  | cons k rest ih =>
    intro lastErr att slp
    rw [callGroqGo]
    cases hr : (runKey k).res with
    | ok t =>
      simp only [hr]
      constructor
      · intro _; exact ⟨k, List.mem_cons_self k rest, t, hr⟩
      · intro _; exact ⟨t, rfl⟩
    | rotate =>
      simp only [hr]
      rw [ih]
      constructor
      · rintro ⟨f, hf, t, ht⟩
        exact ⟨f, List.mem_cons_of_mem _ hf, t, ht⟩
      · rintro ⟨f, hf, t, ht⟩
        rcases List.mem_cons.mp hf with rfl | hf'
        · rw [hr] at ht; cases ht
        · exact ⟨f, hf', t, ht⟩
    | exhausted e =>
      simp only [hr]
      rw [ih]
      constructor
      · rintro ⟨f, hf, t, ht⟩
        exact ⟨f, List.mem_cons_of_mem _ hf, t, ht⟩
      · rintro ⟨f, hf, t, ht⟩
        rcases List.mem_cons.mp hf with rfl | hf'
        · rw [hr] at ht; cases ht
        · exact ⟨f, hf', t, ht⟩

/-- Claim C4 (amended): when every credential in a nonempty pool fails
every attempt with a generic error, `call_groq` raises exactly one
aggregated failure, and it references the last underlying error (the
final attempt's error of the last credential).  More generally — and
this is the amendment — an exception is surfaced exactly when no
credential's run succeeds (total pool exhaustion), whether the
credentials failed by exhausting their retry budgets or by rate-limit
rotation; generic-error exhaustion is one instance, not the only
condition. -/
theorem call_groq_exhaustion (keys : List (ℕ → Outcome)) (hne : keys ≠ [])
    (hgen : ∀ f ∈ keys, ∀ a, ∃ e, f a = Outcome.generic e) :
    (∃ e f, keys.getLast? = some f ∧ f 3 = Outcome.generic e ∧
      (call_groq keys).outcome = Except.error (GroqError.allFailed (some e))) ∧
    (∀ keys' : List (ℕ → Outcome), keys' ≠ [] →
      ((∃ t, (call_groq keys').outcome = Except.ok t) ↔
        ∃ f ∈ keys', ∃ t, (runKey f).res = KeyRes.ok t)) := by
  constructor
  · obtain ⟨e, f, hlast, hf3, hout⟩ := callGroqGo_generic keys hne hgen none 0 0
    refine ⟨e, f, hlast, hf3, ?_⟩
    unfold call_groq
    rw [if_neg (by simp [hne])]
    exact hout
  · intro keys' hne'
    unfold call_groq
    rw [if_neg (by simp [hne'])]
    exact callGroqGo_ok_iff keys' none 0 0

def genericKeyA : ℕ → Outcome := fun _ => Outcome.generic "boom1"

def genericKeyB : ℕ → Outcome := fun _ => Outcome.generic "boom2"

/-- Witness for Claim C4: a two-credential pool failing generically on
every attempt raises the aggregated failure carrying the second
credential's last error. -/
theorem call_groq_exhaustion_witness :
    (call_groq [genericKeyA, genericKeyB]).outcome =
      Except.error (GroqError.allFailed (some "boom2")) := by
  have h := (call_groq_exhaustion [genericKeyA, genericKeyB] (by simp)
    (by
      intro f hf a
      rcases List.mem_cons.mp hf with rfl | hf'
      · exact ⟨"boom1", rfl⟩
      · rcases List.mem_cons.mp hf' with rfl | hf''
        · exact ⟨"boom2", rfl⟩
        · cases hf'')).1
  obtain ⟨e, f, hlast, hf3, hout⟩ := h
  have hfB : f = genericKeyB := by
    have hl : ([genericKeyA, genericKeyB] : List (ℕ → Outcome)).getLast? =
        some genericKeyB := rfl
    rw [hl] at hlast
    exact (Option.some.inj hlast).symm
  subst hfB
  rw [show genericKeyB 3 = Outcome.generic "boom2" from rfl] at hf3
  injection hf3 with he
  rw [he]
  exact hout

/-- Claim C4, as stated, asserts generic-error exhaustion is the *only*
condition surfaced as an exception; this is false: a pool whose single
credential is rate-limited on every attempt never exhausts a retry
budget via generic errors, yet `call_groq` still raises (with no
recorded last error). -/
theorem call_groq_rate_limit_pool_also_raises :
    call_groq [fun _ => Outcome.rateLimit] =
      ⟨1, 0, Except.error (GroqError.allFailed none)⟩ := rfl

-- ===========================================================================
-- reasoning_engine.py: _parse_json_safe  (Claim C6)
-- ===========================================================================

/-- Python `str.strip` whitespace characters (ASCII set). -/
def isSpaceChar (c : Char) : Bool :=
  c == ' ' || c == '\t' || c == '\n' || c == '\r' || c == '\x0b' || c == '\x0c'

def stripLeft (l : List Char) : List Char := l.dropWhile isSpaceChar

def stripRight (l : List Char) : List Char :=
  (l.reverse.dropWhile isSpaceChar).reverse

/-- Python `text.strip()`. -/
def pyStrip (l : List Char) : List Char := stripRight (stripLeft l)

/-- Python `text.find(pat, start)`. -/
def findFrom (pat text : List Char) (start : ℕ) : Option ℕ :=
  (findIdx pat (text.drop start)).map (· + start)

/-- Python `text[s:e]` for `0 ≤ s ≤ e`. -/
def sliceL (l : List Char) (s e : ℕ) : List Char := (l.drop s).take (e - s)

/-- Python `text.rfind(c)` for a single character. -/
def rfindChar (c : Char) (l : List Char) : Option ℕ :=
  match findIdx [c] l.reverse with
  | some i => some (l.length - 1 - i)
  | none => none

def fence3 : List Char := ['`', '`', '`']

def jsonFence : List Char := ['`', '`', '`', 'j', 's', 'o', 'n']

/-- The fenced-block stripping step of `_parse_json_safe`: if a
```` ```json ```` marker is present, take the text between the end of
the first marker and the next ```` ``` ````, stripped; otherwise the
same with a bare ```` ``` ```` marker; otherwise leave the text
unchanged.  (`end > start` guards against an unterminated fence.) -/
def stripFence (t : List Char) : List Char :=
  if containsSub jsonFence t then
    let start := (findIdx jsonFence t).getD 0 + 7
    match findFrom fence3 t start with
    | some e => if start < e then pyStrip (sliceL t start e) else t
    | none => t
  else if containsSub fence3 t then
    let start := (findIdx fence3 t).getD 0 + 3
    match findFrom fence3 t start with
    | some e => if start < e then pyStrip (sliceL t start e) else t
    | none => t
  else t

/-- `ReasoningEngine._parse_json_safe` up to the `json.loads` call:
empty input fails; strip, strip a fenced block, then take the maximal
`\x7b ... \x7d` slice and hand it to `loads`; `none` on any failure
(the caller substitutes the per-call-site default).  `loads` stands for
`json.loads` restricted to payloads that parse as objects — the only
shape the call sites use. -/
def parseRaw (loads : String → Option JDict) (text : String) : Option JDict :=
  if text.data.isEmpty then none
  else
    let t2 := stripFence (pyStrip text.data)
    match findIdx ['\x7b'] t2, rfindChar '\x7d' t2 with
    | some s, some r => if s < r + 1 then loads ⟨sliceL t2 s (r + 1)⟩ else none
    | _, _ => none

/-- `ReasoningEngine._parse_json_safe`: the parsed payload, or the
supplied per-call-site default on any failure. -/
def parseJsonSafe (loads : String → Option JDict) (text : String)
    (default : JDict) : JDict :=
  (parseRaw loads text).getD default

-- ---------------------------------------------------------------------------
-- Substring-search lemmas
-- ---------------------------------------------------------------------------

theorem isPrefixL_append_self (p r : List Char) : isPrefixL p (p ++ r) = true := by
  induction p with
  | nil => rfl
  | cons c cs ih => simp [isPrefixL, ih]

theorem isPrefixL_append_right {pat x : List Char} (h : isPrefixL pat x = true)
    (y : List Char) : isPrefixL pat (x ++ y) = true := by
  induction pat generalizing x with
  | nil => rfl
  | cons p ps ih =>
    cases x with
    | nil => simp [isPrefixL] at h
    | cons c cs =>
      simp only [isPrefixL, Bool.and_eq_true] at h
      simp only [List.cons_append, isPrefixL, Bool.and_eq_true]
      exact ⟨h.1, ih h.2 ⟩

theorem isPrefixL_trans {a b c : List Char} (hab : isPrefixL a b = true)
    (hbc : isPrefixL b c = true) : isPrefixL a c = true := by
  induction a generalizing b c with
  | nil => rfl
  | cons x xs ih =>
    cases b with
    | nil => simp [isPrefixL] at hab
    | cons y ys =>
      cases c with
      | nil => simp [isPrefixL] at hbc
      | cons z zs =>
        simp only [isPrefixL, Bool.and_eq_true, beq_iff_eq] at hab hbc ⊢
        exact ⟨hab.1.trans hbc.1, ih hab.2 hbc.2⟩

theorem isPrefixL_nil_right {c : Char} {cs : List Char} :
    isPrefixL (c :: cs) [] = false := rfl

theorem containsSub_iff (pat l : List Char) :
    containsSub pat l = true ↔ ∃ i, isPrefixL pat (l.drop i) = true := by
  induction l with
  | nil =>
    unfold containsSub findIdx
    constructor
    · intro h
      refine ⟨0, ?_⟩
      by_cases hp : isPrefixL pat [] = true
      · exact hp
      · rw [if_neg hp] at h; simp at h
    · rintro ⟨i, hi⟩
      rw [List.drop_nil] at hi
      simp [hi]
  | cons c cs ih =>
    unfold containsSub findIdx
    by_cases hp : isPrefixL pat (c :: cs) = true
    · simp only [if_pos hp, Option.isSome_some, true_iff]
      exact ⟨0, hp⟩
    · rw [if_neg hp]
      unfold containsSub at ih
      constructor
      · intro h
        have h' : (findIdx pat cs).isSome = true := by
          cases hf : findIdx pat cs with
          | none => rw [hf] at h; simp at h
          | some j => rfl
        obtain ⟨i, hi⟩ := ih.mp h'
        exact ⟨i + 1, by simpa using hi⟩
      · rintro ⟨i, hi⟩
        have h' : (findIdx pat cs).isSome = true := by
          cases i with
          | zero => rw [List.drop_zero] at hi; exact absurd hi hp
          | succ j => exact ih.mpr ⟨j, by simpa using hi⟩
        cases hf : findIdx pat cs with
        | none => rw [hf] at h'; cases h'
        | some j => rfl

theorem containsSub_false_iff (pat l : List Char) :
    containsSub pat l = false ↔ ∀ i, isPrefixL pat (l.drop i) = false := by
  rw [← Bool.not_eq_true, containsSub_iff]
  push_neg
  simp [Bool.not_eq_true]

/-- No occurrence in a superstring means no occurrence in an infix. -/
theorem containsSub_false_of_within {pat a m b : List Char}
    (hpat : pat ≠ [])
    (h : containsSub pat (a ++ m ++ b) = false) : containsSub pat m = false := by
  rw [containsSub_false_iff] at h ⊢
  intro i
  by_contra hocc
  rw [Bool.not_eq_false] at hocc
  by_cases hi : i ≤ m.length
  · have := h (a.length + i)
    rw [List.append_assoc, List.drop_append, List.drop_append_of_le_length hi] at this
    rw [isPrefixL_append_right hocc b] at this
    exact absurd this (by simp)
  · rw [List.drop_eq_nil_of_le (by omega)] at hocc
    cases pat with
    | nil => exact hpat rfl
    | cons p ps => rw [isPrefixL_nil_right] at hocc; cases hocc

/-- An occurrence of the ```` ```json ```` marker contains an occurrence
of the bare ```` ``` ```` marker. -/
theorem containsSub_fence3_of_jsonFence {l : List Char}
    (h : containsSub fence3 l = false) : containsSub jsonFence l = false := by
  rw [containsSub_false_iff] at h ⊢
  intro i
  by_contra hocc
  rw [Bool.not_eq_false] at hocc
  have h3 : isPrefixL fence3 jsonFence = true := by decide
  have := isPrefixL_trans h3 hocc
  rw [h i] at this
  cases this

-- ---------------------------------------------------------------------------
-- Strip lemmas
-- ---------------------------------------------------------------------------

theorem stripLeft_cons_space {c : Char} (hc : isSpaceChar c = true)
    (l : List Char) : stripLeft (c :: l) = stripLeft l := by
  simp [stripLeft, List.dropWhile_cons, hc]

theorem stripLeft_cons_nonspace {c : Char} (hc : isSpaceChar c = false)
    (l : List Char) : stripLeft (c :: l) = c :: l := by
  simp [stripLeft, List.dropWhile_cons, hc]

theorem stripRight_concat_space {c : Char} (hc : isSpaceChar c = true)
    (x : List Char) : stripRight (x ++ [c]) = stripRight x := by
  simp [stripRight, List.dropWhile_cons, hc]

theorem stripRight_concat_nonspace {c : Char} (hc : isSpaceChar c = false)
    (x : List Char) : stripRight (x ++ [c]) = x ++ [c] := by
  simp [stripRight, List.dropWhile_cons, hc]

/-- Both strips of a text sandwiched between newlines equal the strip of
the bare text. -/
theorem pyStrip_sandwich (p : List Char) :
    pyStrip ('\n' :: (p ++ ['\n'])) = pyStrip p := by
  unfold pyStrip
  rw [stripLeft_cons_space (by decide)]
  induction p with
  | nil =>
    rw [show ([] : List Char) ++ ['\n'] = [] ++ ['\n'] from rfl]
    simp [stripLeft, stripRight, List.dropWhile, isSpaceChar]
  | cons c cs ih =>
    by_cases hc : isSpaceChar c = true
    · rw [List.cons_append, stripLeft_cons_space hc, stripLeft_cons_space hc]
      exact ih
    · rw [Bool.not_eq_true] at hc
      rw [List.cons_append, stripLeft_cons_nonspace hc,
        stripLeft_cons_nonspace hc, ← List.cons_append,
        stripRight_concat_space (by decide)]

/-- The strip of a text is an infix of the text. -/
theorem pyStrip_infix (l : List Char) : ∃ a b, l = a ++ pyStrip l ++ b := by
  refine ⟨l.takeWhile isSpaceChar,
    ((stripLeft l).reverse.takeWhile isSpaceChar).reverse, ?_⟩
  unfold pyStrip stripRight
  conv_lhs => rw [← List.takeWhile_append_dropWhile isSpaceChar l]
  rw [List.append_assoc]
  congr 1
  show stripLeft l = _
  conv_lhs => rw [← List.reverse_reverse (stripLeft l)]
  conv_lhs =>
    rw [← List.takeWhile_append_dropWhile isSpaceChar (stripLeft l).reverse]
  rw [List.reverse_append]

-- ---------------------------------------------------------------------------
-- Locating the closing fence of a wrapped payload
-- ---------------------------------------------------------------------------

theorem findIdx_cons (pat : List Char) (c : Char) (cs : List Char) :
    findIdx pat (c :: cs) =
      if isPrefixL pat (c :: cs) then some 0
      else (findIdx pat cs).map (· + 1) := rfl

theorem findIdx_of_prefix {pat l : List Char} (hne : pat ≠ [])
    (h : isPrefixL pat l = true) : findIdx pat l = some 0 := by
  cases l with
  | nil =>
    cases pat with
    | nil => exact absurd rfl hne
    | cons p ps => rw [isPrefixL_nil_right] at h; cases h
  | cons c cs => rw [findIdx_cons, if_pos h]

theorem containsSub_cons_false {pat : List Char} {c : Char} {cs : List Char}
    (h : containsSub pat (c :: cs) = false) :
    isPrefixL pat (c :: cs) = false ∧ containsSub pat cs = false := by
  rw [containsSub_false_iff] at h
  constructor
  · simpa using h 0
  · rw [containsSub_false_iff]
    intro i
    simpa using h (i + 1)

/-- A text with no ```` ``` ```` occurrence, extended by the closing
fence, has no occurrence starting inside the text either. -/
theorem fence_prefix_append {x : List Char} (hx : isPrefixL fence3 x = false) :
    isPrefixL fence3 (x ++ ['\n', '`', '`', '`']) = false := by
  match x with
  | [] => decide
  | [a] => simp [fence3, isPrefixL]
  | [a, b] => simp [fence3, isPrefixL]
  | a :: b :: d :: rest =>
    simp only [fence3, List.cons_append, isPrefixL, Bool.and_eq_true] at hx ⊢
    simpa using hx

/-- The first ```` ``` ```` occurrence in `payload ++ "\n```"` is the one
inside the appended closing fence, at index `payload.length + 1`. -/
theorem findIdx_fence_wrap (p : List Char)
    (hp : containsSub fence3 p = false) :
    findIdx fence3 (p ++ ['\n', '`', '`', '`']) = some (p.length + 1) := by
  induction p with
  | nil => decide
  | cons c cs ih =>
    obtain ⟨hpre, hrest⟩ := containsSub_cons_false hp
    have hpre' : isPrefixL fence3 ((c :: cs) ++ ['\n', '`', '`', '`']) = false :=
      fence_prefix_append hpre
    rw [List.cons_append, findIdx_cons,
      if_neg (by rw [← List.cons_append, hpre']; simp)]
    rw [ih hrest]
    rfl

-- ---------------------------------------------------------------------------
-- The wrapped payload
-- ---------------------------------------------------------------------------

/-- The character data of a payload wrapped in a ```` ```json ```` fence. -/
def wrapData (p : List Char) : List Char :=
  jsonFence ++ '\n' :: (p ++ ['\n', '`', '`', '`'])

theorem wrap_data_eq (P : String) :
    ("```json\n" ++ P ++ "\n```").data = wrapData P.data := by
  show (jsonFence ++ ['\n'] ++ P.data) ++ ['\n', '`', '`', '`'] = _
  simp [wrapData, List.append_assoc]

theorem pyStrip_wrapData (p : List Char) :
    pyStrip (wrapData p) = wrapData p := by
  have h1 : stripLeft (wrapData p) = wrapData p := by
    rw [show wrapData p =
      '`' :: (['`', '`', 'j', 's', 'o', 'n'] ++
        ('\n' :: (p ++ ['\n', '`', '`', '`']))) from rfl]
    exact stripLeft_cons_nonspace (by decide) _
  have h2 : wrapData p = (jsonFence ++ '\n' :: (p ++ ['\n', '`', '`'])) ++ ['`'] := by
    simp [wrapData, List.append_assoc]
  unfold pyStrip
  rw [h1, h2, stripRight_concat_nonspace (by decide), ← h2]

theorem drop7_wrapData (p : List Char) :
    (wrapData p).drop 7 = '\n' :: (p ++ ['\n', '`', '`', '`']) := rfl

theorem stripFence_wrap (p : List Char) (hp : containsSub fence3 p = false) :
    stripFence (wrapData p) = pyStrip p := by
  have hjson : containsSub jsonFence (wrapData p) = true := by
    rw [containsSub_iff]
    exact ⟨0, by rw [List.drop_zero]; exact isPrefixL_append_self _ _⟩
  have hfind0 : findIdx jsonFence (wrapData p) = some 0 :=
    findIdx_of_prefix (by decide) (isPrefixL_append_self _ _)
  have hfindrest : findIdx fence3 ('\n' :: (p ++ ['\n', '`', '`', '`'])) =
      some (p.length + 2) := by
    rw [findIdx_cons, if_neg (by simp [isPrefixL, fence3]), findIdx_fence_wrap p hp]
    rfl
  have hfind : findFrom fence3 (wrapData p) 7 = some (p.length + 9) := by
    unfold findFrom
    rw [drop7_wrapData, hfindrest]
    show some (p.length + 2 + 7) = _
    rw [show p.length + 2 + 7 = p.length + 9 by omega]
  have hslice : sliceL (wrapData p) 7 (p.length + 9) = '\n' :: (p ++ ['\n']) := by
    unfold sliceL
    rw [drop7_wrapData, show p.length + 9 - 7 = p.length + 1 + 1 by omega]
    rw [List.take_succ_cons, List.take_append]
    rfl
  unfold stripFence
  rw [if_pos hjson, hfind0]
  show (match findFrom fence3 (wrapData p) ((some 0).getD 0 + 7) with
    | some e => if (some 0).getD 0 + 7 < e then
        pyStrip (sliceL (wrapData p) ((some 0).getD 0 + 7) e)
      else wrapData p
    | none => wrapData p) = pyStrip p
  rw [show ((some 0).getD 0 + 7 : ℕ) = 7 from rfl, hfind]
  rw [show (match some (p.length + 9) with
    | some e => if 7 < e then pyStrip (sliceL (wrapData p) 7 e) else wrapData p
    | none => wrapData p) =
      if 7 < p.length + 9 then pyStrip (sliceL (wrapData p) 7 (p.length + 9))
      else wrapData p from rfl]
  rw [if_pos (by omega), hslice, pyStrip_sandwich]

theorem stripFence_no_fence {t : List Char}
    (h3 : containsSub fence3 t = false) : stripFence t = t := by
  have hj := containsSub_fence3_of_jsonFence h3
  unfold stripFence
  rw [if_neg (by simp [hj]), if_neg (by simp [h3])]

-- ---------------------------------------------------------------------------
-- Claim C6
-- ---------------------------------------------------------------------------

/-- Claim C6: a structured payload (containing no fence marker of its
own) wrapped in a ```` ```json ```` fenced block with the language tag
parses to exactly the same result as the unwrapped payload — for every
parser `loads` — and on parse failure the per-call-site default is
returned instead of an exception being raised. -/
theorem parse_json_safe_fence_invariant (loads : String → Option JDict)
    (P : String) (d : JDict) (t : String)
    (hP : containsSub fence3 P.data = false) :
    parseJsonSafe loads ("```json\n" ++ P ++ "\n```") d = parseJsonSafe loads P d ∧
    (parseRaw loads t = none → parseJsonSafe loads t d = d) := by
  refine ⟨?_, fun h => by simp [parseJsonSafe, h]⟩
  unfold parseJsonSafe
  have hraw : parseRaw loads ("```json\n" ++ P ++ "\n```") = parseRaw loads P := by
    unfold parseRaw
    rw [wrap_data_eq]
    by_cases hp : P.data.isEmpty
    · have hnil : P.data = [] := by simpa using hp
      rw [if_pos hp, hnil]
      rfl
    · rw [Bool.not_eq_true] at hp
      have hne : (wrapData P.data).isEmpty = false := rfl
      rw [if_neg (by simp [hne]), if_neg (by simp [hp])]
      have ht2 : stripFence (pyStrip (wrapData P.data)) =
          stripFence (pyStrip P.data) := by
        rw [pyStrip_wrapData, stripFence_wrap P.data hP]
        obtain ⟨a, b, hab⟩ := pyStrip_infix P.data
        rw [stripFence_no_fence
          (containsSub_false_of_within (by decide) (hab ▸ hP))]
      rw [ht2]
  rw [hraw]

/-- `json.loads` restricted to the one concrete payload of the witness:
the literal object text parses to the corresponding dict, exactly as
`json.loads` does on that input. -/
def jsonLoadsFixture : String → Option JDict :=
  fun s => if s = "\x7b\"a\": 1\x7d" then some [("a", Val.num 1)] else none

theorem parse_json_safe_fence_invariant_witness :
    parseJsonSafe jsonLoadsFixture ("```json\n" ++ "\x7b\"a\": 1\x7d" ++ "\n```")
        [("fallback", Val.null)] =
      parseJsonSafe jsonLoadsFixture "\x7b\"a\": 1\x7d" [("fallback", Val.null)] ∧
    parseJsonSafe jsonLoadsFixture "garbage" [("fallback", Val.null)] =
      [("fallback", Val.null)] := by
  have h := parse_json_safe_fence_invariant jsonLoadsFixture "\x7b\"a\": 1\x7d"
    [("fallback", Val.null)] "garbage" (by decide)
  exact ⟨h.1, h.2 rfl⟩

-- ===========================================================================
-- reasoning_engine.py: the 4-stage pipeline's stage functions
-- (Claims C5, C7, C8)
-- ===========================================================================

/-- `StageResult` from `reasoning_engine.py`.  Confidence is whatever
value the parsed payload supplied (a `Val`), exactly as in Python. -/
structure StageResult where
  stage : String
  output : JDict
  context_used : List String
  confidence : Val
  raw_response : String

/-- `ReasoningEngine._stage_validate`, with the completion call modelled
by its `response` and `json.loads` by `loads`.  The hypothesis string is
written into the output unconditionally after parsing. -/
def stage_validate (hypothesis : String) (confidence : Val) (context : JDict)
    (response : String) (loads : String → Option JDict) : StageResult :=
  let defaultOut : JDict :=
    [("validation_result", Val.str "neutral"),
     ("confidence_updated", confidence),
     ("spatial_notes", Val.str "Unable to determine spatial distribution"),
     ("new_evidence_summary", Val.str "")]
  let output0 := parseJsonSafe loads response defaultOut
  let output := dictSet output0 "hypothesis" (Val.str hypothesis)
  ⟨"validate", output, context.map Prod.fst,
    dictGet output "confidence_updated" confidence, response⟩

/-- `ReasoningEngine._stage_contradict`. -/
def stage_contradict (hypothesis : String) (confidence : Val) (context : JDict)
    (response : String) (loads : String → Option JDict) : StageResult :=
  let defaultOut : JDict :=
    [("contradiction_found", Val.bool false),
     ("contradicting_evidence", Val.list []),
     ("alternative_hypothesis", Val.str "none"),
     ("alternative_confidence", Val.num 0),
     ("reasoning", Val.str "No strong contradicting evidence found")]
  let output := parseJsonSafe loads response defaultOut
  ⟨"contradict", output, context.map Prod.fst,
    dictGet output "alternative_confidence" (Val.num 0), response⟩

/-- `ReasoningEngine._stage_confirm`.  The entering confidences are the
floats the pipeline passes in; the default payload's diagnosis is the
more confident hypothesis (`hypothesis_1` on ties). -/
def stage_confirm (hypothesis_1 : String) (conf_1 : ℚ) (hypothesis_2 : String)
    (conf_2 : ℚ) (context : JDict) (response : String)
    (loads : String → Option JDict) : StageResult :=
  let default_diagnosis := if conf_1 ≥ conf_2 then hypothesis_1 else hypothesis_2
  let default_conf : ℚ := max conf_1 conf_2
  let defaultOut : JDict :=
    [("final_diagnosis", Val.str default_diagnosis),
     ("confidence", Val.num default_conf),
     ("causal_chain", Val.str (default_diagnosis ++ " leads to observed symptoms")),
     ("root_cause", Val.str default_diagnosis),
     ("symptoms", Val.list []),
     ("evidence_summary", Val.dict
        [("supporting", Val.list (context.map (fun e => Val.str e.1))),
         ("contradicting", Val.list []),
         ("inconclusive", Val.list [])]),
     ("recommendation",
       Val.str "Further investigation recommended based on available data")]
  let output := parseJsonSafe loads response defaultOut
  ⟨"confirm", output, context.map Prod.fst,
    dictGet output "confidence" (Val.num default_conf), response⟩

theorem dictFind_dictSet_self (d : JDict) (k : String) (v : Val) :
    dictFind (dictSet d k v) k = some v := by
  induction d with
  | nil => simp [dictSet, dictFind]
  | cons e es ih =>
    obtain ⟨k', v'⟩ := e
    by_cases hk : k' = k
    · subst hk; simp [dictSet, dictFind]
    · simp [dictSet, dictFind, hk, ih]

theorem dictFind_dictSet_ne (d : JDict) {k k' : String} (v : Val)
    (h : k' ≠ k) : dictFind (dictSet d k v) k' = dictFind d k' := by
  have hkk : ¬(k = k') := fun he => h he.symm
  induction d with
  | nil =>
    show dictFind [(k, v)] k' = dictFind [] k'
    simp only [dictFind]
    rw [if_neg hkk]
  | cons e es ih =>
    obtain ⟨k0, v0⟩ := e
    by_cases hk : k0 = k
    · subst hk
      rw [show dictSet ((k0, v0) :: es) k0 v = (k0, v) :: es by simp [dictSet]]
      simp only [dictFind]
      rw [if_neg hkk, if_neg hkk]
    · rw [show dictSet ((k0, v0) :: es) k v = (k0, v0) :: dictSet es k v by
        simp [dictSet, hk]]
      simp only [dictFind]
      rw [ih]

-- ---------------------------------------------------------------------------
-- Claim C8
-- ---------------------------------------------------------------------------

/-- Claim C8: for every completion response (well-formed or malformed),
the Validate stage's output carries the hypothesis passed in from the
prior stage unchanged — the stage writes it into the parsed payload
unconditionally, overwriting anything the model produced. -/
theorem stage_validate_carries_hypothesis (hypothesis : String)
    (confidence : Val) (context : JDict) (response : String)
    (loads : String → Option JDict) :
    dictFind (stage_validate hypothesis confidence context response loads).output
      "hypothesis" = some (Val.str hypothesis) := by
  unfold stage_validate
  exact dictFind_dictSet_self _ _ _

-- ---------------------------------------------------------------------------
-- Claim C7
-- ---------------------------------------------------------------------------

/-- `json.loads` restricted to the two payloads exercised by the C7
theorems: a validation payload and a contradiction payload, each missing
its confidence field, parsed exactly as `json.loads` parses them. -/
def stageLoadsFixture : String → Option JDict := fun s =>
  if s = "\x7b\"validation_result\": \"confirmed\"\x7d" then
    some [("validation_result", Val.str "confirmed")]
  else if s = "\x7b\"contradiction_found\": true\x7d" then
    some [("contradiction_found", Val.bool true)]
  else none

/-- Claim C7, as stated, is false: in the Contradict stage a parsed
payload missing its confidence field yields a `StageResult` confidence
of `0.0`, not the confidence `0.8` carried from the previous stage. -/
theorem stage_contradict_confidence_not_inherited :
    (stage_contradict "pest_infestation" (Val.num (4/5)) []
        "\x7b\"contradiction_found\": true\x7d" stageLoadsFixture).confidence =
      Val.num 0 ∧
    Val.num 0 ≠ Val.num (4/5) := by
  refine ⟨rfl, ?_⟩
  intro h
  injection h with h'
  exact absurd h' (by norm_num)

/-- Claim C7 (amended): in the Validate stage a payload missing
`confidence_updated` (or an unparseable response) inherits the
confidence carried from the previous stage; in the Contradict stage a
payload missing `alternative_confidence` (or an unparseable response)
yields confidence `0.0` instead. -/
theorem stage_confidence_defaults (loads : String → Option JDict)
    (rv rc h1 h2 : String) (c c2 : Val) (ctx1 ctx2 : JDict)
    (hv : ∀ p, parseRaw loads rv = some p →
      dictFind p "confidence_updated" = none)
    (hc : ∀ p, parseRaw loads rc = some p →
      dictFind p "alternative_confidence" = none) :
    (stage_validate h1 c ctx1 rv loads).confidence = c ∧
    (stage_contradict h2 c2 ctx2 rc loads).confidence = Val.num 0 := by
  constructor
  · unfold stage_validate parseJsonSafe
    cases hp : parseRaw loads rv with
    | none =>
      simp only [hp, Option.getD_none]
      rw [dictGet, dictFind_dictSet_ne _ _ (by decide)]
      rfl
    | some p =>
      simp only [hp, Option.getD_some]
      rw [dictGet, dictFind_dictSet_ne _ _ (by decide), hv p hp]
      rfl
  · unfold stage_contradict parseJsonSafe
    cases hp : parseRaw loads rc with
    | none =>
      simp only [hp, Option.getD_none]
      rfl
    | some p =>
      simp only [hp, Option.getD_some]
      rw [dictGet, hc p hp]
      rfl

theorem stage_confidence_defaults_witness :
    (stage_validate "leaf_yellowing" (Val.num (1/2)) []
        "\x7b\"validation_result\": \"confirmed\"\x7d" stageLoadsFixture).confidence =
      Val.num (1/2) ∧
    (stage_contradict "leaf_yellowing" (Val.num (1/2)) []
        "\x7b\"contradiction_found\": true\x7d" stageLoadsFixture).confidence =
      Val.num 0 :=
  stage_confidence_defaults stageLoadsFixture
    "\x7b\"validation_result\": \"confirmed\"\x7d"
    "\x7b\"contradiction_found\": true\x7d" "leaf_yellowing" "leaf_yellowing"
    (Val.num (1/2)) (Val.num (1/2)) [] []
    (fun p hp => by
      rw [show parseRaw stageLoadsFixture
        "\x7b\"validation_result\": \"confirmed\"\x7d" =
          some [("validation_result", Val.str "confirmed")] from rfl] at hp
      rw [← Option.some.inj hp]
      rfl)
    (fun p hp => by
      rw [show parseRaw stageLoadsFixture
        "\x7b\"contradiction_found\": true\x7d" =
          some [("contradiction_found", Val.bool true)] from rfl] at hp
      rw [← Option.some.inj hp]
      rfl)

-- ---------------------------------------------------------------------------
-- Claim C5
-- ---------------------------------------------------------------------------

/-- Claim C5 (amended): when the Confirm stage's completion output is
unusable, the tie-break selects as final diagnosis whichever competing
hypothesis entered with the higher confidence (the stage-2 hypothesis on
ties); in particular, whenever the alternative's confidence does not
exceed the carried one — as with the Contradict stage's default
no-contradiction payload (`alternative_hypothesis "none"`,
`alternative_confidence 0.0`) and a non-negative carried confidence —
the stage-2 hypothesis is selected, and the result's confidence is the
larger entering confidence. -/
theorem confirm_tie_break (loads : String → Option JDict)
    (h1 h2 : String) (c1 c2 : ℚ) (ctx : JDict) (r : String)
    (hr : parseRaw loads r = none) (hc : c2 ≤ c1) :
    dictGet (stage_confirm h1 c1 h2 c2 ctx r loads).output "final_diagnosis"
        (Val.str "Undetermined") = Val.str h1 ∧
    (stage_confirm h1 c1 h2 c2 ctx r loads).confidence = Val.num c1 := by
  unfold stage_confirm parseJsonSafe
  rw [hr]
  simp only [Option.getD_none]
  rw [if_pos (show c1 ≥ c2 from hc)]
  constructor
  · rfl
  · show Val.num (max c1 c2) = Val.num c1
    rw [max_eq_left hc]

theorem confirm_tie_break_witness :
    dictGet (stage_confirm "nitrogen_deficiency" (3/5) "none" 0 [] "no json here"
        (fun _ => none)).output "final_diagnosis" (Val.str "Undetermined") =
      Val.str "nitrogen_deficiency" ∧
    (stage_confirm "nitrogen_deficiency" (3/5) "none" 0 [] "no json here"
        (fun _ => none)).confidence = Val.num (3/5) :=
  confirm_tie_break (fun _ => none) "nitrogen_deficiency" "none" (3/5) 0 []
    "no json here" rfl (by norm_num)

/-- `json.loads` restricted to the contradiction payload of the C5
counterexample, parsed exactly as `json.loads` parses it. -/
def confirmCxLoads : String → Option JDict := fun s =>
  if s = "\x7b\"contradiction_found\": false, \"alternative_hypothesis\": \"drought_stress\", \"alternative_confidence\": 0.9\x7d" then
    some [("contradiction_found", Val.bool false),
          ("alternative_hypothesis", Val.str "drought_stress"),
          ("alternative_confidence", Val.num (9/10))]
  else none

set_option maxRecDepth 10000 in
/-- Claim C5, as stated, is false: stage 3 can report
`contradiction_found: false` while still proposing an alternative with
higher confidence than the carried hypothesis; with stage 4's output
unusable, the tie-break then selects that alternative, not the
hypothesis carried from stage 2. -/
theorem confirm_tie_break_selects_alternative :
    dictGet (stage_contradict "pest_infestation" (Val.num (1/2)) []
        "\x7b\"contradiction_found\": false, \"alternative_hypothesis\": \"drought_stress\", \"alternative_confidence\": 0.9\x7d"
        confirmCxLoads).output "contradiction_found" Val.null = Val.bool false ∧
    dictGet (stage_contradict "pest_infestation" (Val.num (1/2)) []
        "\x7b\"contradiction_found\": false, \"alternative_hypothesis\": \"drought_stress\", \"alternative_confidence\": 0.9\x7d"
        confirmCxLoads).output "alternative_hypothesis" (Val.str "none") =
      Val.str "drought_stress" ∧
    dictGet (stage_confirm "pest_infestation" (1/2) "drought_stress" (9/10) []
        "unusable output" confirmCxLoads).output "final_diagnosis"
        (Val.str "Undetermined") = Val.str "drought_stress" ∧
    "drought_stress" ≠ "pest_infestation" := by
  refine ⟨rfl, rfl, ?_, by decide⟩
  unfold stage_confirm parseJsonSafe
  rw [show parseRaw confirmCxLoads "unusable output" = none from rfl]
  simp only [Option.getD_none]
  rw [if_neg (by norm_num : ¬((1/2 : ℚ) ≥ 9/10))]
  rfl

-- ===========================================================================
-- reasoning_engine.py: _execute_deep_dive  (Claim C10)
-- ===========================================================================

/-- `ReasoningResult` from `reasoning_engine.py`.  Fields populated from
parsed payloads carry whatever value the payload supplied (`Val`).
The `recommendation` field holds the raw value whose string rendering
Python would store (`str(...)`); the rendering itself is not modelled —
no claim depends on it. -/
structure ReasoningResult where
  claim : StageResult
  validation : StageResult
  contradiction : StageResult
  confirmation : StageResult
  final_diagnosis : Val
  final_confidence : Val
  causal_chain : Val
  root_cause : Val
  symptoms : List Val
  recommendation : Val
  evidence_summary : JDict

/-- `ReasoningEngine._execute_deep_dive`: the three completion calls of
the Hypothesis → Adversary → Judge protocol are modelled by their
response texts `r1, r2, r3` (the prompts built from the context digests
influence only what the external model replies, which is exactly what
the response arguments stand for). -/
def execute_deep_dive (r1 r2 r3 : String)
    (loads : String → Option JDict) : ReasoningResult :=
  let out_hyp := parseJsonSafe loads r1 [("hypotheses", Val.list [])]
  let out_adv := parseJsonSafe loads r2 [("surviving_hypothesis", Val.str "Unknown")]
  let winner := dictGet out_adv "surviving_hypothesis" (Val.str "Unknown")
  let out_judge := parseJsonSafe loads r3
    [("final_diagnosis", winner), ("action_plan", Val.dict [])]
  let result_hyp : StageResult := ⟨"hypothesis", out_hyp, [], Val.num 0, ""⟩
  let result_adv : StageResult := ⟨"adversary", out_adv, [], Val.num 0, ""⟩
  let result_judge : StageResult := ⟨"judge", out_judge, [], Val.num 0, ""⟩
  { claim := result_hyp
    validation := result_adv
    contradiction := result_adv
    confirmation := result_judge
    final_diagnosis := dictGet out_judge "final_diagnosis" (Val.str "Unknown")
    final_confidence := Val.num (9/10)
    causal_chain := dictGet out_judge "detailed_reasoning" (Val.str "")
    root_cause := dictGet out_judge "root_cause" (Val.str "")
    symptoms := []
    recommendation := dictGet out_judge "action_plan" (Val.str "")
    evidence_summary := [("method", Val.list [Val.str "deep_dive_3_stage"])] }

/-- Claim C10: every Deep Dive run reports the constant final confidence
0.9, regardless of the three stages' completion outputs and of how they
parse. -/
theorem deep_dive_constant_confidence (r1 r2 r3 : String)
    (loads : String → Option JDict) :
    (execute_deep_dive r1 r2 r3 loads).final_confidence = Val.num (9/10) := rfl

-- ===========================================================================
-- intent_classifier.py  (Claim C9)
-- ===========================================================================

structure IntentConfig where
  keywords : List String
  phrases : List String
  sub_intents : List String
  priority : ℕ

/-- `INTENT_PATTERNS` from `intent_classifier.py`, in declaration
order. -/
def INTENT_PATTERNS : List (String × IntentConfig) :=
  [ ("vegetation_health",
     ⟨["yellow", "yellowing", "brown", "browning", "dying", "wilting",
       "healthy", "health", "crop health", "plant health", "leaf", "leaves",
       "chlorophyll", "green", "greenness", "stunted", "weak", "pale",
       "ndvi", "evi", "vegetation", "biomass", "vigor", "canopy"],
      ["why is my crop", "is my crop healthy", "crop looks",
       "plants look", "leaves turning", "plant dying"],
      ["chlorophyll_issue", "nutrient_deficiency", "general_health"], 1⟩),
    ("water_stress",
     ⟨["water", "irrigation", "irrigate", "dry", "drought", "moisture",
       "thirsty", "watering", "rain", "wet", "smi", "ndwi", "soil moisture",
       "dehydrated", "wilt", "drooping", "crispy", "parched"],
      ["need water", "should i water", "need irrigation", "drought stress",
       "when to irrigate", "soil is dry", "field is dry"],
      ["drought_stress", "overwatering", "irrigation_timing"], 2⟩),
    ("nutrient_status",
     ⟨["fertilizer", "nutrient", "nitrogen", "phosphorus", "potassium",
       "npk", "deficiency", "feeding", "feed", "ndre", "reci", "mcari",
       "urea", "dap", "mop", "manure", "compost", "micronutrient"],
      ["need fertilizer", "nutrient deficiency", "should i fertilize",
       "lacking nutrients", "nitrogen deficiency", "fertilizer amount"],
      ["nitrogen_deficiency", "nutrient_excess", "fertilizer_timing"], 3⟩),
    ("pest_disease",
     ⟨["pest", "disease", "insect", "bug", "infection", "fungus",
       "blight", "rot", "spots", "holes", "eating", "aphid", "borer",
       "rust", "mildew", "virus", "bacteria", "infestation", "damage"],
      ["pest attack", "disease problem", "insect damage", "fungal infection",
       "what is eating", "spots on leaves", "pest risk"],
      ["pest_damage", "fungal_disease", "bacterial_issue", "viral_disease"], 4⟩),
    ("zone_specific",
     ⟨["area", "zone", "patch", "section", "part", "corner", "side",
       "northeast", "northwest", "southeast", "southwest", "north", "south",
       "east", "west", "center", "edge", "boundary", "specific"],
      ["which area", "which zone", "which part", "where is the problem",
       "affected area", "problem zone", "specific area"],
      ["zone_diagnosis", "zone_comparison", "spatial_query"], 5⟩),
    ("forecast_query",
     ⟨["forecast", "predict", "prediction", "future", "next week", "tomorrow",
       "will", "expect", "trend", "coming days", "upcoming", "projection",
       "growth", "yield", "estimate", "outlook"],
      ["what will happen", "next week", "in the future", "will my crop",
       "expected yield", "growth forecast", "weather forecast"],
      ["growth_forecast", "stress_prediction", "weather_impact",
       "yield_forecast"], 6⟩),
    ("action_recommendation",
     ⟨["what should", "how to", "fix", "solve", "recommend", "advice",
       "help", "do", "action", "steps", "treatment", "remedy", "solution",
       "best practice", "suggestion", "improve"],
      ["what should i do", "how do i fix", "how to solve", "recommend",
       "give me advice", "best action", "immediate action"],
      ["immediate_action", "long_term_plan", "preventive_action"], 7⟩),
    ("comparison",
     ⟨["compare", "comparison", "better", "worse", "change", "changed",
       "difference", "last week", "before", "improvement", "decline",
       "progress", "regression", "historical", "trend"],
      ["compared to", "better than", "worse than", "has it improved",
       "how has it changed", "over time", "last month"],
      ["temporal_comparison", "zone_comparison", "historical_analysis"], 8⟩),
    ("field_comparison",
     ⟨["compare", "comparison", "versus", " vs ", "other field", "another field",
       "between fields", "both fields", "which field", "differ", "different field",
       "my other", "second field", "first field"],
      ["compare with", "compared to my", "how does my * compare",
       "between my fields", "which field is better", "difference between",
       "compare * and *", "other farm", "other farmland", "another farm"],
      ["multi_field_analysis", "field_ranking", "relative_health"], 2⟩),
    ("general_query",
     ⟨["what", "how", "why", "tell", "about", "explain", "hello", "hi",
       "information", "details", "overview", "status", "summary"],
      ["tell me about", "what is", "how does", "explain"],
      ["general_info"], 9⟩) ]

/-- `REGIONAL_KEYWORDS` from `intent_classifier.py`. -/
def REGIONAL_KEYWORDS : List (String × List String) :=
  [ ("vegetation_health", ["पीला", "पत्ते", "सूखा", "मुरझाना"]),
    ("water_stress", ["पानी", "सिंचाई", "सूखा"]),
    ("nutrient_status", ["खाद", "यूरिया", "उर्वरक"]),
    ("pest_disease", ["कीट", "रोग", "कीड़ा"]) ]

/-- Python's `\w` (word character), ASCII portion: the regex word-bonus
test is applied to the ASCII keyword table only. -/
def isWordChar (c : Char) : Bool := c.isAlphanum || c == '_'

def wordAt (q : List Char) (j : ℕ) : Bool :=
  match q.get? j with
  | some c => isWordChar c
  | none => false

/-- A `\b` word boundary at position `i` of `q` (between characters
`i - 1` and `i`; the virtual characters beyond the ends are
non-word). -/
def boundaryAt (q : List Char) (i : ℕ) : Bool :=
  (if i = 0 then false else wordAt q (i - 1)) != wordAt q i

/-- `re.search(rf"\b{re.escape(kw)}\b", q)` for a literal keyword. -/
def reSearchWord (kw q : List Char) : Bool :=
  (List.range (q.length + 1)).any fun i =>
    isPrefixL kw (q.drop i) && boundaryAt q i && boundaryAt q (i + kw.length)

/-- `IntentClassifier._score_intent`: +0.15 per keyword substring hit
(+0.05 more on a whole-word regex hit), +0.35 per phrase hit, +0.1 once
three or more matches accumulate. -/
def scoreIntent (q : List Char) (cfg : IntentConfig) : ℚ × List String :=
  let p1 := cfg.keywords.foldl
    (fun acc kw =>
      if containsSub kw.data q then
        ((acc.1 + 0.15) + (if reSearchWord kw.data q then 0.05 else 0),
         acc.2 ++ [kw])
      else acc) ((0 : ℚ), ([] : List String))
  let p2 := cfg.phrases.foldl
    (fun acc ph =>
      if containsSub ph.data q then (acc.1 + 0.35, acc.2 ++ [ph]) else acc) p1
  if p2.2.length ≥ 3 then (p2.1 + 0.1, p2.2) else p2

/-- One intent's score in `classify`'s loop: the pattern score on the
lowered query plus +0.3 per regional keyword found in the original
query. -/
def categoryScore (query : String) (entry : String × IntentConfig) :
    ℚ × List String :=
  let base := scoreIntent (lowerL query.data) entry.2
  match REGIONAL_KEYWORDS.lookup entry.1 with
  | some kws =>
      kws.foldl
        (fun a kw =>
          if containsSub kw.data query.data then (a.1 + 0.3, a.2 ++ [kw]) else a)
        base
  | none => base

/-- The scored intents (score capped at 1.0), in table order, keeping
only strictly positive scores — `intent_scores` with its matched
keywords. -/
def intentScoresList (query : String) : List (String × ℚ × List String) :=
  INTENT_PATTERNS.foldl
    (fun acc entry =>
      if (categoryScore query entry).1 > 0 then
        acc ++ [(entry.1, min (categoryScore query entry).1 1,
                 (categoryScore query entry).2)]
      else acc) []

/-- Stable insertion keeping scores descending: an element is placed
after every element with a score ≥ its own, which matches the stability
of Python's `sorted(..., reverse=True)`. -/
def insertDesc (x : String × ℚ × List String) :
    List (String × ℚ × List String) → List (String × ℚ × List String)
  | [] => [x]
  | y :: ys => if y.2.1 ≥ x.2.1 then y :: insertDesc x ys else x :: y :: ys

def sortDesc (l : List (String × ℚ × List String)) :
    List (String × ℚ × List String) :=
  l.foldl (fun acc x => insertDesc x acc) []

/-- Python `round(q, 2)`.  All reachable scores are integer multiples of
0.05, so the rounding mode never matters. -/
def round2 (q : ℚ) : ℚ := (round (q * 100) : ℚ) / 100

/-- `IntentClassifier._detect_sub_intents`. -/
def detectSubIntents (qL : List Char) (primary : String) : List String :=
  let base :=
    match INTENT_PATTERNS.lookup primary with
    | some cfg =>
        match cfg.sub_intents with
        | s :: _ => [s]
        | [] => []
    | none => []
  let s := base
    ++ (if containsSub "why".data qL then ["causal_analysis"] else [])
    ++ (if containsSub "how much".data qL || containsSub "how many".data qL ||
          containsSub "quantity".data qL then ["quantitative"] else [])
    ++ (if containsSub "when".data qL then ["temporal"] else [])
    ++ (if containsSub "where".data qL then ["spatial"] else [])
    ++ (if containsSub "should".data qL || containsSub "recommend".data qL then
          ["recommendation_needed"] else [])
    ++ (if containsSub "urgent".data qL || containsSub "immediately".data qL ||
          containsSub "emergency".data qL then ["urgent"] else [])
  if s.isEmpty then ["general"] else s

structure IntentResult where
  primary_intent : String
  sub_intents : List String
  confidence : ℚ
  matched_keywords : List String
  all_intents : List (String × ℚ)

/-- `IntentClassifier._default_response`. -/
def default_response : IntentResult :=
  ⟨"general_query", ["general_info"], 0.4, [], [("general_query", 0.4)]⟩

/-- `IntentClassifier.classify`. -/
def classify (query : String) : IntentResult :=
  let scores := intentScoresList query
  if scores.isEmpty then default_response
  else
    match sortDesc scores with
    | [] => default_response
    | top :: rest =>
        ⟨top.1, detectSubIntents (lowerL query.data) top.1, round2 top.2.1,
         top.2.2,
         ((top :: rest).take 3).map (fun e => (e.1, round2 e.2.1))⟩

-- ---------------------------------------------------------------------------
-- Claim C9
-- ---------------------------------------------------------------------------

theorem mem_insertDesc {x y : String × ℚ × List String}
    {l : List (String × ℚ × List String)} (h : y ∈ insertDesc x l) :
    y = x ∨ y ∈ l := by
  induction l with
  | nil => simpa [insertDesc] using h
  | cons z zs ih =>
    unfold insertDesc at h
    by_cases hc : z.2.1 ≥ x.2.1
    · rw [if_pos hc] at h
      rcases List.mem_cons.mp h with rfl | h'
      · exact Or.inr (List.mem_cons_self _ _)
      · rcases ih h' with h'' | h''
        · exact Or.inl h''
        · exact Or.inr (List.mem_cons_of_mem _ h'')
    · rw [if_neg hc] at h
      rcases List.mem_cons.mp h with rfl | h'
      · exact Or.inl rfl
      · exact Or.inr h'

theorem mem_sortDesc {l : List (String × ℚ × List String)}
    {y : String × ℚ × List String} (h : y ∈ sortDesc l) : y ∈ l := by
  suffices haux : ∀ (l acc : List (String × ℚ × List String)),
      y ∈ l.foldl (fun acc x => insertDesc x acc) acc → y ∈ acc ∨ y ∈ l by
    rcases haux l [] h with h' | h'
    · cases h'
    · exact h'
  intro l
  induction l with
  | nil => intro acc h; exact Or.inl h
  | cons z zs ih =>
    intro acc h
    rw [List.foldl_cons] at h
    rcases ih _ h with h' | h'
    · rcases mem_insertDesc h' with rfl | h''
      · exact Or.inr (List.mem_cons_self _ _)
      · exact Or.inl h''
    · exact Or.inr (List.mem_cons_of_mem _ h')

theorem mem_intentScoresList {query : String} {x : String × ℚ × List String}
    (h : x ∈ intentScoresList query) :
    x.1 ∈ INTENT_PATTERNS.map Prod.fst ∧ 0 < x.2.1 ∧ x.2.1 ≤ 1 := by
  suffices haux : ∀ (l : List (String × IntentConfig))
      (acc : List (String × ℚ × List String)),
      (∀ y ∈ acc, y.1 ∈ INTENT_PATTERNS.map Prod.fst ∧ 0 < y.2.1 ∧ y.2.1 ≤ 1) →
      (∀ e ∈ l, e.1 ∈ INTENT_PATTERNS.map Prod.fst) →
      ∀ y ∈ l.foldl (fun acc entry =>
        if (categoryScore query entry).1 > 0 then
          acc ++ [(entry.1, min (categoryScore query entry).1 1,
                   (categoryScore query entry).2)]
        else acc) acc,
        y.1 ∈ INTENT_PATTERNS.map Prod.fst ∧ 0 < y.2.1 ∧ y.2.1 ≤ 1 by
    exact haux INTENT_PATTERNS [] (by intro y hy; cases hy)
      (fun e he => List.mem_map_of_mem Prod.fst he) x h
  intro l
  induction l with
  | nil => intro acc hacc _ y hy; exact hacc y hy
  | cons e es ih =>
    intro acc hacc hl y hy
    rw [List.foldl_cons] at hy
    refine ih _ ?_ (fun e' he' => hl e' (List.mem_cons_of_mem _ he')) y hy
    intro z hz
    by_cases hc : (categoryScore query e).1 > 0
    · simp only [if_pos hc] at hz
      rcases List.mem_append.mp hz with h' | h'
      · exact hacc z h'
      · rw [List.mem_singleton] at h'
        subst h'
        refine ⟨hl e (List.mem_cons_self _ _), ?_, ?_⟩
        · exact lt_min hc one_pos
        · exact min_le_right _ _
    · simp only [if_neg hc] at hz
      exact hacc z hz

theorem round2_bounds {q : ℚ} (h0 : 0 ≤ q) (h1 : q ≤ 1) :
    0 ≤ round2 q ∧ round2 q ≤ 1 := by
  have hmono : ∀ {a b : ℚ}, a ≤ b → round a ≤ round b := by
    intro a b hab
    rw [round_eq, round_eq]
    exact Int.floor_mono (by linarith)
  have hlo : (0 : ℤ) ≤ round (q * 100) := by
    have h2 := hmono (show (0 : ℚ) ≤ q * 100 by positivity)
    simpa using h2
  have hhi : round (q * 100) ≤ 100 := by
    have h2 := hmono (show q * 100 ≤ (100 : ℚ) by nlinarith)
    have h3 : round ((100 : ℚ)) = 100 := by
      rw [show ((100 : ℚ)) = ((100 : ℤ) : ℚ) by norm_num, round_intCast]
    omega
  unfold round2
  constructor
  · apply div_nonneg _ (by norm_num)
    exact_mod_cast hlo
  · rw [div_le_one (by norm_num)]
    exact_mod_cast hhi

theorem intentScoresList_eq_nil {query : String}
    (h : ∀ e ∈ INTENT_PATTERNS, (categoryScore query e).1 = 0) :
    intentScoresList query = [] := by
  suffices haux : ∀ (l : List (String × IntentConfig))
      (acc : List (String × ℚ × List String)),
      (∀ e ∈ l, (categoryScore query e).1 = 0) →
      l.foldl (fun acc entry =>
        if (categoryScore query entry).1 > 0 then
          acc ++ [(entry.1, min (categoryScore query entry).1 1,
                   (categoryScore query entry).2)]
        else acc) acc = acc by
    exact haux INTENT_PATTERNS [] h
  intro l
  induction l with
  | nil => intro acc _; rfl
  | cons e es ih =>
    intro acc hl
    rw [List.foldl_cons]
    have he0 : (categoryScore query e).1 = 0 := hl e (List.mem_cons_self _ _)
    have hcond : ¬((categoryScore query e).1 > 0) := by
      rw [he0]; exact lt_irrefl 0
    rw [if_neg hcond]
    exact ih _ (fun e' he' => hl e' (List.mem_cons_of_mem _ he'))

theorem classify_cases (query : String) :
    classify query = default_response ∨
      ∃ top, top ∈ intentScoresList query ∧
        (classify query).primary_intent = top.1 ∧
        (classify query).confidence = round2 top.2.1 := by
  unfold classify
  by_cases he : (intentScoresList query).isEmpty = true
  · rw [if_pos he]
    exact Or.inl rfl
  · rw [if_neg he]
    cases hs : sortDesc (intentScoresList query) with
    | nil => exact Or.inl rfl
    | cons top rest =>
      refine Or.inr ⟨top, ?_, rfl, rfl⟩
      exact mem_sortDesc (hs ▸ List.mem_cons_self top rest)

/-- Claim C9: for every query, `classify` returns a confidence in
`[0, 1]` and a primary intent that is a key of the static pattern table
(the fixed default `general_query` is itself such a key); and whenever
every category — pattern score plus regional bonus — scores zero, the
result is exactly the fixed default (`general_query`, confidence
0.4). -/
theorem classify_spec (query : String) :
    (0 ≤ (classify query).confidence ∧ (classify query).confidence ≤ 1) ∧
    (classify query).primary_intent ∈ INTENT_PATTERNS.map Prod.fst ∧
    ((∀ e ∈ INTENT_PATTERNS, (categoryScore query e).1 = 0) →
      classify query = default_response) := by
  refine ⟨?_, ?_, ?_⟩
  · rcases classify_cases query with h | ⟨top, hmem, _, hconf⟩
    · rw [h]
      show (0 : ℚ) ≤ 0.4 ∧ (0.4 : ℚ) ≤ 1
      norm_num
    · rw [hconf]
      obtain ⟨_, h0, h1⟩ := mem_intentScoresList hmem
      exact round2_bounds (le_of_lt h0) h1
  · rcases classify_cases query with h | ⟨top, hmem, hprim, _⟩
    · rw [h]
      show "general_query" ∈ INTENT_PATTERNS.map Prod.fst
      decide
    · rw [hprim]
      exact (mem_intentScoresList hmem).1
  · intro h
    have hnil := intentScoresList_eq_nil h
    unfold classify
    rw [hnil]
    rfl

theorem classify_spec_witness :
    (0 ≤ (classify "zzz").confidence ∧ (classify "zzz").confidence ≤ 1) ∧
    (classify "zzz").primary_intent ∈ INTENT_PATTERNS.map Prod.fst ∧
    classify "zzz" = default_response := by
  have h := classify_spec "zzz"
  exact ⟨h.1, h.2.1, h.2.2 (by decide)⟩

end Agrow
